import Mathlib

/-!
Verification development for the retailer scraping pipeline of
`ingredient_converter.py` (breadcrumb extraction, normalization, scoring,
priority dispatch, price-field parsing, flat export).

The Python source is shallowly embedded: pure helper functions are
translated directly; the side-effecting fetch/extract collaborators
(network fetchers, BeautifulSoup-based extractors, the json / ast / re
library calls) are abstracted as explicit function parameters (oracles),
so the control flow of the embedded dispatcher and parser is exactly the
control flow of the source.  Python strings are modelled as Lean
`String` (ASCII case conversion, as all compared constants are ASCII),
Python ints as `Int`/`Nat`, Python `None` via `Option`.
-/

/-! ### Python-style character and string primitives -/

/-- ASCII lower-casing of a single character, the fragment of Python
`str.lower` exercised by the source (all compared constants are ASCII). -/
def charLower (c : Char) : Char :=
  if 65 ≤ c.toNat ∧ c.toNat ≤ 90 then Char.ofNat (c.toNat + 32) else c

/-- ASCII upper-casing of a single character (Python `str.upper`). -/
def charUpper (c : Char) : Char :=
  if 97 ≤ c.toNat ∧ c.toNat ≤ 122 then Char.ofNat (c.toNat - 32) else c

/-- Python `str.lower` (ASCII fragment). -/
def strLower (s : String) : String := String.mk (s.data.map charLower)

/-- Python `str.upper` (ASCII fragment). -/
def strUpper (s : String) : String := String.mk (s.data.map charUpper)

/-- Whitespace class of Python `\s` / `str.strip`:
space, tab, newline, carriage return, vertical tab, form feed. -/
def isPyWs (c : Char) : Bool :=
  c = ' ' || c = '\t' || c = '\n' || c = '\r' || c = '\x0b' || c = '\x0c'

/-- Python `str.strip()` with no arguments. -/
def pyStrip (s : String) : String :=
  String.mk (((s.data.dropWhile isPyWs).reverse.dropWhile isPyWs).reverse)

/-- Python `str.startswith`. -/
def pyStartsWith (s pre : String) : Bool := pre.data.isPrefixOf s.data

/-- Python `str.endswith`. -/
def pyEndsWith (s suf : String) : Bool := suf.data.isSuffixOf s.data

/-- Substring test on character lists (Python `needle in hay`). -/
def containsSub : List Char → List Char → Bool
  | [], pat => pat.isEmpty
  | c :: t, pat => pat.isPrefixOf (c :: t) || containsSub t pat

/-- Python `pat in hay` for strings. -/
def strContainsB (hay pat : String) : Bool := containsSub hay.data pat.data

/-- Python `s.count(ch)` for a single character. -/
def countChar (s : String) (c : Char) : Nat := s.data.count c

/-- Python `s[:n]` (prefix of length `n`). -/
def pyTake (n : Nat) (s : String) : String := String.mk (s.data.take n)

/-- Python `sep.join(parts)`. -/
def joinSep (sep : String) : List String → String
  | [] => ""
  | [x] => x
  | x :: y :: rest => x ++ sep ++ joinSep sep (y :: rest)

/-- Helper for `splitOnChar`. -/
def splitOnCharAux (sep : Char) : List Char → List Char → List String
  | [], cur => [String.mk cur.reverse]
  | c :: rest, cur =>
    if c = sep then String.mk cur.reverse :: splitOnCharAux sep rest []
    else splitOnCharAux sep rest (c :: cur)

/-- Python `s.split(sep)` for a one-character separator. -/
def splitOnChar (sep : Char) (s : String) : List String :=
  splitOnCharAux sep s.data []

/-- Helper for `collapseWs`: the flag records whether the previous
character was whitespace (so the run was already replaced). -/
def collapseWsAux : Bool → List Char → List Char
  | _, [] => []
  | prevWs, c :: rest =>
    if isPyWs c then
      if prevWs then collapseWsAux true rest
      else ' ' :: collapseWsAux true rest
    else c :: collapseWsAux false rest

/-- Python `re.sub(r"\s+", " ", s)`: collapse whitespace runs to one space. -/
def collapseWs (s : String) : String := String.mk (collapseWsAux false s.data)

/-- Is the character an ASCII letter (`[a-zA-Z]`)? -/
def isAsciiAlpha (c : Char) : Bool :=
  (65 ≤ c.toNat ∧ c.toNat ≤ 90) || (97 ≤ c.toNat ∧ c.toNat ≤ 122)

/-- Python regex `\w` (ASCII fragment): letter, digit or underscore. -/
def isWordChar (c : Char) : Bool :=
  isAsciiAlpha c || (48 ≤ c.toNat ∧ c.toNat ≤ 57) || c = '_'

/-- Helper for `pyTitle`: the flag records whether the previous character
was alphabetic. -/
def pyTitleAux : Bool → List Char → List Char
  | _, [] => []
  | prev, c :: rest =>
    if isAsciiAlpha c then
      (if prev then charLower c else charUpper c) :: pyTitleAux true rest
    else c :: pyTitleAux false rest

/-- Python `str.title` (ASCII fragment). -/
def pyTitle (s : String) : String := String.mk (pyTitleAux false s.data)

/-! ### A small regex engine

The promo patterns of `is_valid_category_text` use only literal
characters, `\s*`, `\s+` and `\w+`; this token language embeds exactly
those regexes (with full backtracking semantics). -/

/-- A regex token: a literal character, `\s*`, `\s+`, or `\w+`. -/
inductive RTok where
  | ch (c : Char)
  | ws0
  | ws1
  | wd1
deriving Repr, DecidableEq

/-- Compile a literal string into regex tokens. -/
def rstr (s : String) : List RTok := s.data.map RTok.ch

/-- Fuelled backtracking matcher: does some prefix of `cs` match the token
sequence?  Every recursive call strictly decreases the lexicographic
measure `(cs.length, toks.length)` (a token sequence never grows), so the
fuel supplied by `reMatch` below can never run out; structural recursion
on the fuel keeps the definition kernel-computable. -/
def reMatchF : Nat → List RTok → List Char → Bool
  | 0, _, _ => false
  | f + 1, toks, cs =>
    match toks with
    | [] => true
    | .ch c :: rest =>
      match cs with
      | [] => false
      | c2 :: cs2 => c = c2 && reMatchF f rest cs2
    | .ws0 :: rest =>
      reMatchF f rest cs ||
        match cs with
        | [] => false
        | c2 :: cs2 => isPyWs c2 && reMatchF f (.ws0 :: rest) cs2
    | .ws1 :: rest =>
      match cs with
      | [] => false
      | c2 :: cs2 => isPyWs c2 && reMatchF f (.ws0 :: rest) cs2
    | .wd1 :: rest =>
      match cs with
      | [] => false
      | c2 :: cs2 => isWordChar c2 && (reMatchF f rest cs2 || reMatchF f (.wd1 :: rest) cs2)

/-- Does some prefix of `cs` match the token sequence (with backtracking)? -/
def reMatch (toks : List RTok) (cs : List Char) : Bool :=
  reMatchF ((cs.length + 1) * (toks.length + 1)) toks cs

/-- Python `re.search`: does the pattern match at some position? -/
def reSearch (toks : List RTok) : List Char → Bool
  | [] => reMatch toks []
  | c :: t => reMatch toks (c :: t) || reSearch toks t

/-! ### `is_valid_category_text` (source lines 4847-4874) -/

/-- The `promo_patterns` regex table of `is_valid_category_text`,
compiled to the token language. -/
def promoPatterns : List (List RTok) :=
  [rstr "offer", rstr "deal", rstr "save",
   rstr "%" ++ [.ws0] ++ rstr "off",
   rstr "half" ++ [.ws0] ++ rstr "price",
   rstr "discount", rstr "delivery", rstr "pass", rstr "account",
   rstr "login", rstr "register", rstr "help",
   rstr "basket", rstr "checkout", rstr "search", rstr "menu",
   rstr "back", rstr "previous",
   rstr "my" ++ [.ws1, .wd1],
   rstr "choose" ++ [.ws1] ++ rstr "your",
   rstr "opens" ++ [.ws1] ++ rstr "in",
   rstr "new" ++ [.ws1] ++ rstr "window",
   rstr "free" ++ [.ws1] ++ rstr "delivery",
   rstr "click" ++ [.ws1] ++ rstr "and" ++ [.ws1] ++ rstr "collect",
   rstr "store" ++ [.ws1] ++ rstr "finder"]

/-- `is_valid_category_text`: non-empty after stripping, length 2..100,
contains a letter, and matches no promo pattern (case-insensitively). -/
def is_valid_category_text (text : String) : Bool :=
  if text = "" then false
  else
    let t := pyStrip text
    if t = "" || t.length < 2 || 100 < t.length then false
    else if !(t.data.any isAsciiAlpha) then false
    else if promoPatterns.any (fun p => reSearch p (strLower t).data) then false
    else true

/-! ### `normalize_breadcrumbs` (source lines 4876-4918) -/

/-- The generic navigation tokens filtered by the normalizer. -/
def genericNavTerms : List String := ["home", "homepage", "shop", "browse", "all", "categories"]

/-- The `store_terms` set built by `normalize_breadcrumbs`: the lowercased
store id plus its underscore-to-space and underscore-removed variants
(the Python `replace` calls are specialised here to their one-character
pattern). An absent or empty (falsy) `store_norm` yields no terms. -/
def storeTerms : Option String → List String
  | none => []
  | some s =>
    if s = "" then []
    else
      let l := strLower s
      [l, String.mk (l.data.map (fun c => if c = '_' then ' ' else c)),
       String.mk (l.data.filter (fun c => c ≠ '_'))]

/-- The per-crumb loop of `normalize_breadcrumbs`: strip, collapse
whitespace, validate, filter generic navigation terms (keeping a leading
"home"-like term, title-cased), filter store-name occurrences,
de-duplicate preserving order, and stop once `max_levels` entries are
collected (the source checks the bound after each append). -/
def normLoop (store_terms : List String) (max_levels : Nat) : List String → List String → List String
  | [], cleaned => cleaned
  | crumb :: rest, cleaned =>
    let c0 := pyStrip crumb
    if c0 = "" then normLoop store_terms max_levels rest cleaned
    else
      let c1 := collapseWs c0
      let cl := strLower c1
      if !is_valid_category_text c1 then normLoop store_terms max_levels rest cleaned
      else if genericNavTerms.contains cl && !cleaned.isEmpty then
        normLoop store_terms max_levels rest cleaned
      else
        let c2 := if genericNavTerms.contains cl && cleaned.isEmpty then
            (if pyStartsWith cl "home" then pyTitle c1 else c1)
          else c1
        if store_terms.any (fun t => t ≠ "" && strContainsB cl t) then
          normLoop store_terms max_levels rest cleaned
        else
          let cleaned2 := if cleaned.contains c2 then cleaned else cleaned ++ [c2]
          if max_levels ≤ cleaned2.length then cleaned2
          else normLoop store_terms max_levels rest cleaned2

/-- `normalize_breadcrumbs(breadcrumbs, store_norm, url, max_levels)`.
The `url` parameter is unused in the source body and kept for fidelity. -/
def normalize_breadcrumbs (breadcrumbs : List String) (store_norm : Option String)
    (_url : Option String) (max_levels : Nat) : List String :=
  if breadcrumbs.isEmpty then [] else normLoop (storeTerms store_norm) max_levels breadcrumbs []

/-! ### `score_breadcrumb_quality` (source lines 4920-5032) -/

/-- `SCORE_THRESHOLDS['level_6_bonus']` (source line 440). -/
def SCORE_THRESHOLDS_level_6_bonus : Int := 15

/-- `SCORE_THRESHOLDS['deep_hierarchy_bonus']` (source line 441). -/
def SCORE_THRESHOLDS_deep_hierarchy_bonus : Int := 20

/-- The `promotional_terms` set of the scorer. -/
def promotionalTerms : List String :=
  ["fill your freezer", "big savings event", "organic september", "ocado price promise",
   "recipes", "coupons", "top offers", "half price", "wine sale", "offers", "deals",
   "save", "discount", "promotion", "event", "sale"]

/-- The `navigation_terms` set of the scorer. -/
def navigationTerms : List String := ["home", "shop", "browse", "categories", "departments", "all"]

/-- `category_indicators['food_categories']`. -/
def foodCategories : List String :=
  ["food", "fresh", "chilled", "frozen", "dairy", "meat", "fish", "bakery", "produce"]

/-- `category_indicators['product_categories']`. -/
def productCategories : List String :=
  ["pastry", "bread", "milk", "cheese", "yogurt", "butter", "eggs", "vegetables", "fruit"]

/-- `category_indicators['health_beauty']`. -/
def healthBeautyCategories : List String :=
  ["health", "beauty", "skincare", "haircare", "pharmacy", "vitamins", "supplements"]

/-- `category_indicators['household']`. -/
def householdCategories : List String :=
  ["household", "cleaning", "laundry", "home", "garden", "pet"]

/-- The category-indicator bonus for one crumb: families are tested in the
dict insertion order of the source and the first hit wins (+15 food,
+20 product, +10 otherwise). -/
def categoryFamilyBonus (cl : String) : Int :=
  if foodCategories.any (fun t => strContainsB cl t) then 15
  else if productCategories.any (fun t => strContainsB cl t) then 20
  else if healthBeautyCategories.any (fun t => strContainsB cl t) then 10
  else if householdCategories.any (fun t => strContainsB cl t) then 10
  else 0

/-- The per-crumb adjustment of the scorer (promotional −40, generic
navigation −10, non-first store-name occurrence −15, else the
category-indicator bonus). -/
def crumbAdjust (store_name : String) (i : Nat) (crumb : String) : Int :=
  let cl := pyStrip (strLower crumb)
  if promotionalTerms.any (fun p => strContainsB cl p) then -40
  else if navigationTerms.contains cl then -10
  else if 0 < i && store_name ≠ "" && strContainsB cl (strLower store_name) then -15
  else categoryFamilyBonus cl

/-- Sum of the per-crumb adjustments, with `enumerate` indices. -/
def crumbAdjustSum (store_name : String) : Nat → List String → Int
  | _, [] => 0
  | i, c :: rest => crumbAdjust store_name i c + crumbAdjustSum store_name (i + 1) rest

/-- The length bonus/penalty block of the scorer. -/
def lengthAdjust (n : Nat) : Int :=
  if 3 ≤ n ∧ n ≤ 6 then 25
  else if 2 ≤ n ∧ n ≤ 7 then 15
  else if 8 < n then -20
  else 0

/-- The depth-bonus block of the scorer (source lines 4984-4990):
`len ≥ 6` earns `level_6_bonus`, else `len ≥ 5` earns
`deep_hierarchy_bonus`, else `len ≥ 4` earns 10. -/
def depthBonus (n : Nat) : Int :=
  if 6 ≤ n then SCORE_THRESHOLDS_level_6_bonus
  else if 5 ≤ n then SCORE_THRESHOLDS_deep_hierarchy_bonus
  else if 4 ≤ n then 10
  else 0

/-- `logical_progression_patterns` (each source pattern has two entries;
the slices `pattern[:-1]` / `pattern[1:]` are its two components). -/
def logicalProgressionPatterns : List (String × String) :=
  [("home", "food"), ("food", "dairy"), ("dairy", "milk"),
   ("fresh", "chilled"), ("health", "beauty"), ("home", "garden")]

/-- Does an adjacent pair hit some progression pattern? -/
def progressionPairHit (cur nxt : String) : Bool :=
  logicalProgressionPatterns.any (fun p => strContainsB cur p.1 && strContainsB nxt p.2)

/-- +10 per adjacent lowercased pair hitting a progression pattern. -/
def progressionPairsBonus : List String → Int
  | a :: b :: rest =>
    (if progressionPairHit (strLower a) (strLower b) then 10 else 0) +
      progressionPairsBonus (b :: rest)
  | _ => 0

/-- The length-progression bonus: +10 when the crumb lengths are not all
equal and the last is at least the first. -/
def lengthsAdjust (bc : List String) : Int :=
  let lengths := bc.map String.length
  if lengths.all (fun x => x = lengths.headD 0) then 0
  else if lengths.headD 0 ≤ lengths.getLastD 0 then 10 else 0

/-- The hierarchy-quality block, applied only to lists of length ≥ 2:
the progression bonus capped at 30 plus the length-progression bonus. -/
def hierarchyAdjust (bc : List String) : Int :=
  if 2 ≤ bc.length then min (progressionPairsBonus bc) 30 + lengthsAdjust bc else 0

/-- `perfect_patterns` of the scorer. -/
def perfectPatterns : List String :=
  ["home > fresh", "food > dairy", "dairy > eggs", "health > beauty",
   "fresh > chilled", "chilled > dairy", "household > cleaning"]

/-- +25 when the joined lowercased breadcrumb text contains a perfect pattern. -/
def perfectPatternBonus (bc : List String) : Int :=
  if perfectPatterns.any (fun p => strContainsB (strLower (joinSep " > " bc)) p) then 25 else 0

/-- `score_breadcrumb_quality(breadcrumbs, store_name, url)`: 0 for an
empty list, otherwise base 50 plus all adjustments, clamped to 0..100.
The `url` parameter is unused in the source body and kept for fidelity. -/
def score_breadcrumb_quality (breadcrumbs : List String) (store_name : String) (_url : String) : Int :=
  if breadcrumbs.isEmpty then 0
  else
    max 0 (min 100
      (50 + lengthAdjust breadcrumbs.length + crumbAdjustSum store_name 0 breadcrumbs +
        depthBonus breadcrumbs.length + hierarchyAdjust breadcrumbs +
        perfectPatternBonus breadcrumbs))

/-! ### Fetch body validity (source lines 2503-2519, `SuperEnhancedFetcher.fetch`) -/

/-- The fast-fail `blocked_indicators` list of `fetch`. -/
def blocked_indicators : List String :=
  ["access denied", "cloudflare", "blocked", "captcha", "429", "rate limit"]

/-- Outcome of the per-strategy body check inside `fetch` phase 1:
a body is cached and returned (`accepted`), or the host is recorded as
blocked and the cascade continues (`blockedNext`), or the body is too
small/absent and the cascade continues (`invalidNext`). -/
inductive BodyVerdict where
  | accepted
  | blockedNext
  | invalidNext
deriving Repr, DecidableEq

/-- The body check of `fetch`: `if html and len(html) > 500:` then scan the
first 2000 lowercased characters for a blocked indicator. -/
def fetchBodyVerdict (html : Option String) : BodyVerdict :=
  match html with
  | none => .invalidNext
  | some h =>
    if h ≠ "" && 500 < h.length then
      if blocked_indicators.any (fun ind => strContainsB (strLower (pyTake 2000 h)) ind) then
        .blockedNext
      else .accepted
    else .invalidNext

/-- The acceptance condition as worded by the claim/spec: length at least
`minBytes` (500) and no block indicator in the first ~2 KiB. -/
def acceptSpecC6 (h : String) : Bool :=
  500 ≤ h.length &&
    blocked_indicators.all (fun ind => !(strContainsB (strLower (pyTake 2000 h)) ind))

/-! ### Store-name normalization and priority order
(source lines 401, 7700-7737; the later of the two Python definitions of
`normalize_store_name` / `order_store_items` is the one in effect at call
time and is the one embedded here) -/

/-- A single-quote character / string, used inside alias literals. -/
def sqChr : Char := Char.ofNat 39

/-- The single-quote as a string. -/
def sqStr : String := String.mk [sqChr]

/-- `SCRAPE_PRIORITY` (source line 401). -/
def SCRAPE_PRIORITY : List String :=
  ["aldi", "ocado", "morrisons", "boots", "iceland", "superdrug", "savers", "poundland",
   "bmstores", "ebay", "amazon", "wilko", "tesco", "asda", "sainsburys", "waitrose"]

/-- `NORMALIZED_LOOKUP`: lowercased alias → normalized id, flattened from
`STORE_ALIASES` (duplicate lowercased aliases of the same store collapse
to one entry, as they do in the Python dict). -/
def NORMALIZED_LOOKUP : List (String × String) :=
  [("tesco", "tesco"), ("tesco.com", "tesco"),
   ("sainsburys", "sainsburys"), ("sainsbury" ++ sqStr ++ "s", "sainsburys"),
   ("sainsburys.co.uk", "sainsburys"),
   ("asda", "asda"), ("asda.com", "asda"),
   ("iceland", "iceland"), ("iceland.co.uk", "iceland"),
   ("waitrose", "waitrose"), ("waitrose & partners", "waitrose"), ("waitrose.com", "waitrose"),
   ("morrisons", "morrisons"), ("morrison", "morrisons"),
   ("morrison" ++ sqStr ++ "s", "morrisons"), ("morrisons.com", "morrisons"),
   ("ocado", "ocado"), ("ocado.com", "ocado"),
   ("boots", "boots"), ("boots.com", "boots"),
   ("superdrug", "superdrug"), ("superdrug.com", "superdrug"),
   ("amazon", "amazon"), ("amazon.co.uk", "amazon"),
   ("ebay", "ebay"), ("ebay.co.uk", "ebay"),
   ("aldi", "aldi"), ("aldi.co.uk", "aldi")]

/-- `normalize_store_name` (source line 7721): alias-table lookup of the
stripped lowercased name, defaulting to the stripped lowercased name. -/
def normalize_store_name (store : String) : String :=
  let k := strLower (pyStrip store)
  ((NORMALIZED_LOOKUP.find? (fun p => p.1 == k)).map (fun p => p.2)).getD k

/-- `priority_index.get(x, len(priority_index))`. -/
def priorityIndex (s : String) : Nat :=
  (SCRAPE_PRIORITY.findIdx? (fun p => p == s)).getD SCRAPE_PRIORITY.length

/-- Stable insertion into a key-sorted list: the new element goes before
existing elements of equal key, matching Python list.sort stability when
building from the right. -/
def insertByKey (key : String × StoreVal → Nat) (x : String × StoreVal) :
    List (String × StoreVal) → List (String × StoreVal)
  | [] => [x]
  | y :: ys => if key y < key x then y :: insertByKey key x ys else x :: y :: ys

/-- Stable sort by key (insertion sort, stable). -/
def stableSortByKey (key : String × StoreVal → Nat) : List (String × StoreVal) → List (String × StoreVal)
  | [] => []
  | x :: xs => insertByKey key x (stableSortByKey key xs)

/-- A value of the parsed prices dict: either not a dict (skipped by the
dispatcher), or a dict whose `store_link` is present or absent. -/
inductive StoreVal where
  | other
  | dict (link : Option String)
deriving Repr, DecidableEq

/-- `order_store_items` (source line 7725): normalize the store names and
stably sort by priority rank (missing stores rank last). -/
def order_store_items (prices : List (String × StoreVal)) : List (String × StoreVal) :=
  stableSortByKey (fun p => priorityIndex p.1)
    (prices.map (fun p => (normalize_store_name p.1, p.2)))

/-- `not url or not url.startswith(('http://', 'https://'))` negated. -/
def validUrlB (u : String) : Bool :=
  u ≠ "" && (pyStartsWith u "http://" || pyStartsWith u "https://")

/-- `not html or len(html) < 500` (the dispatcher-side invalid-body test). -/
def htmlInvalid : Option String → Bool
  | none => true
  | some h => h = "" || h.length < 500

/-! ### `process_row_with_priority_system` (source lines 5038-5227)

The fetcher and the HTML extractors are side-effecting collaborators;
they are abstracted as oracles in `RowCfg`:
* `fetch s u`      — the value returned by `fetcher.fetch(url, store_norm)`;
* `fetchBlocks s u` — whether that `fetch` call added `s` to the process-wide
  `fetcher.blocked_stores` set via `_record_blocked` (source lines 1032-1039);
* `urlFb s u`      — `scrape_superdrug/savers/aldi_improved(minimal_soup, "", url)`;
* `extractE s h u` — `extract_breadcrumbs_enhanced(soup, html, url, store_norm)`
  (the BeautifulSoup parse is a pure function of the html and is folded in);
* `zenFetch s u`   — `fetcher.fetch_with_zenrows(url, store_norm)`. -/

/-- Oracle bundle for one dispatcher run. -/
structure RowCfg where
  fetch : String → String → Option String
  fetchBlocks : String → String → Bool
  urlFb : String → String → List String × String
  extractE : String → String → String → List String × String
  zenFetch : String → String → Option String

/-- The result dict built by `process_row_with_priority_system`. -/
structure RowResult where
  status : String
  category : Option String
  score : Int
  store_used : Option String
  method : Option String
  attempt : Nat
  stores_attempted : Nat
  total_stores : Nat
  debug : String
  processing_method : String
deriving Repr, DecidableEq

/-- The initial `best_result` of the dispatcher. -/
def initialBestResult (total_stores : Nat) : RowResult :=
  { status := "failed", category := none, score := 0, store_used := none, method := none,
    attempt := 0, stores_attempted := 0, total_stores := total_stores,
    debug := "no_successful_extraction", processing_method := "priority_based_enhanced" }

/-- The `'no_stores_available'` result returned for an empty prices dict. -/
def noStoresResult : RowResult :=
  { status := "failed", category := none, score := 0, store_used := none, method := none,
    attempt := 0, stores_attempted := 0, total_stores := 0,
    debug := "no_stores_available", processing_method := "priority_based_enhanced" }

/-- The stores with a URL-based fallback in phase 1 (source line 5093). -/
def urlFallbackStores : List String := ["superdrug", "savers", "aldi"]

/-- The phase-1 success result built on the main extraction path. -/
def phase1MainResult (store url : String) (crumbs : List String) (debug : String)
    (attempted total_stores : Nat) : RowResult :=
  { status := "success", category := some (joinSep " > " crumbs),
    score := score_breadcrumb_quality crumbs store url, store_used := some store,
    method := some debug, attempt := 1, stores_attempted := attempted,
    total_stores := total_stores, debug := debug,
    processing_method := "priority_based_enhanced" }

/-- The phase-1 success result built on the URL-based fallback path. -/
def phase1FallbackResult (store url : String) (crumbs : List String) (debug : String)
    (attempted total_stores : Nat) : RowResult :=
  { status := "success", category := some (joinSep " > " crumbs),
    score := score_breadcrumb_quality crumbs store url, store_used := some store,
    method := some ("url_fallback_" ++ debug), attempt := 1, stores_attempted := attempted,
    total_stores := total_stores, debug := "url_fallback_" ++ debug,
    processing_method := "priority_based_enhanced" }

/-- The phase-2 (ZenRows) success result. -/
def phase2Result (store url : String) (crumbs : List String) (debug : String)
    (attempted total_stores : Nat) : RowResult :=
  { status := "success", category := some (joinSep " > " crumbs),
    score := score_breadcrumb_quality crumbs store url, store_used := some store,
    method := some ("zenrows_" ++ debug), attempt := 2, stores_attempted := attempted,
    total_stores := total_stores, debug := "zenrows_fallback_" ++ debug,
    processing_method := "priority_based_enhanced" }

/-- Outcome of the phase-1 loop: an early `return` from inside the loop, or
loop completion with the best below-threshold result.  Each constructor
carries the attempt count, the stores recorded blocked by this row's
fetch calls, and the trace of stores actually fetched. -/
inductive Phase1Out where
  | early (r : RowResult) (attempted : Nat) (recorded fetched : List String)
  | done (best : RowResult) (attempted : Nat) (recorded fetched : List String)
deriving Repr, DecidableEq

/-- Phase 1 of the dispatcher (source lines 5079-5170): iterate the ordered
stores sequentially; skip non-dict values and invalid URLs; fetch; on an
invalid body run the URL-based fallback for the three supported stores
(returning immediately on any non-empty crumbs); otherwise extract,
normalize, score, return immediately at score ≥ 50, and keep the
highest-scoring below-threshold result. -/
def phase1Loop (cfg : RowCfg) (total_stores : Nat) :
    List (String × StoreVal) → Nat → RowResult → List String → List String → Phase1Out
  | [], attempted, best, recorded, fetched => .done best attempted recorded fetched
  | (store, sv) :: rest, attempted, best, recorded, fetched =>
    match sv with
    | .other => phase1Loop cfg total_stores rest attempted best recorded fetched
    | .dict link =>
      match link with
      | none => phase1Loop cfg total_stores rest attempted best recorded fetched
      | some url =>
        if !validUrlB url then phase1Loop cfg total_stores rest attempted best recorded fetched
        else
          let attempted2 := attempted + 1
          let html := cfg.fetch store url
          let recorded2 := recorded ++ (if cfg.fetchBlocks store url then [store] else [])
          let fetched2 := fetched ++ [store]
          if htmlInvalid html then
            if urlFallbackStores.contains store then
              let fb := cfg.urlFb store url
              if !fb.1.isEmpty then
                .early (phase1FallbackResult store url fb.1 fb.2 attempted2 total_stores)
                  attempted2 recorded2 fetched2
              else phase1Loop cfg total_stores rest attempted2 best recorded2 fetched2
            else phase1Loop cfg total_stores rest attempted2 best recorded2 fetched2
          else
            match html with
            | none => phase1Loop cfg total_stores rest attempted2 best recorded2 fetched2
            | some h =>
              let ex := cfg.extractE store h url
              let crumbs := normalize_breadcrumbs ex.1 (some store) (some url) 6
              if !crumbs.isEmpty then
                let current := phase1MainResult store url crumbs ex.2 attempted2 total_stores
                if 50 ≤ current.score then .early current attempted2 recorded2 fetched2
                else
                  phase1Loop cfg total_stores rest attempted2
                    (if best.score < current.score then current else best) recorded2 fetched2
              else phase1Loop cfg total_stores rest attempted2 best recorded2 fetched2

/-- Outcome of the phase-2 loop, with the trace of ZenRows calls. -/
inductive Phase2Out where
  | early (r : RowResult) (zen : List String)
  | done (best : RowResult) (zen : List String)
deriving Repr, DecidableEq

/-- Phase 2 of the dispatcher (source lines 5172-5219): for each ordered
store that is in the blocked set (and is a dict with a valid URL), call
the ZenRows renderer; on a body longer than 500 characters extract raw
breadcrumbs (no normalization), score, return immediately at score ≥ 50,
and keep the highest-scoring below-threshold result. -/
def phase2Loop (cfg : RowCfg) (total_stores : Nat) (blocked : List String) (attemptedP1 : Nat) :
    List (String × StoreVal) → RowResult → List String → Phase2Out
  | [], best, zen => .done best zen
  | (store, sv) :: rest, best, zen =>
    if !blocked.contains store then phase2Loop cfg total_stores blocked attemptedP1 rest best zen
    else
      match sv with
      | .other => phase2Loop cfg total_stores blocked attemptedP1 rest best zen
      | .dict link =>
        match link with
        | none => phase2Loop cfg total_stores blocked attemptedP1 rest best zen
        | some url =>
          if !validUrlB url then phase2Loop cfg total_stores blocked attemptedP1 rest best zen
          else
            let html := cfg.zenFetch store url
            let zen2 := zen ++ [store]
            match html with
            | none => phase2Loop cfg total_stores blocked attemptedP1 rest best zen2
            | some h =>
              if !(500 < h.length) then
                phase2Loop cfg total_stores blocked attemptedP1 rest best zen2
              else
                let ex := cfg.extractE store h url
                if !ex.1.isEmpty then
                  let current := phase2Result store url ex.1 ex.2 attemptedP1 total_stores
                  if 50 ≤ current.score then .early current zen2
                  else
                    phase2Loop cfg total_stores blocked attemptedP1 rest
                      (if best.score < current.score then current else best) zen2
                else phase2Loop cfg total_stores blocked attemptedP1 rest best zen2

/-- Execution trace of one dispatcher run: the stores fetched in phase 1,
the stores recorded blocked by those fetches, the stores sent to the
ZenRows renderer in phase 2, whether phase 1 returned early, and the
best phase-1 score when it did not. -/
structure RowTrace where
  fetched : List String
  recorded : List String
  zenrows : List String
  phase1Early : Bool
  phase1BestScore : Int
deriving Repr, DecidableEq

/-- `process_row_with_priority_system(prices_dict, fetcher)`, instrumented
with a trace.  `initBlocked` is the content of the process-wide
`fetcher.blocked_stores` set when the row starts (it persists across
rows in the source); phase 2 reads `initBlocked` plus the stores
recorded during this row's phase 1. -/
def process_row_with_priority_system (cfg : RowCfg) (initBlocked : List String)
    (prices : List (String × StoreVal)) : RowResult × RowTrace :=
  if prices.isEmpty then
    (noStoresResult,
     { fetched := [], recorded := [], zenrows := [], phase1Early := false, phase1BestScore := 0 })
  else
    let ordered := order_store_items prices
    let total := ordered.length
    match phase1Loop cfg total ordered 0 (initialBestResult total) [] [] with
    | .early r attempted recorded fetched =>
      let _ := attempted
      (r, { fetched := fetched, recorded := recorded, zenrows := [],
            phase1Early := true, phase1BestScore := r.score })
    | .done best attempted recorded fetched =>
      let blocked := initBlocked ++ recorded
      if best.score < 50 && !blocked.isEmpty then
        match phase2Loop cfg total blocked attempted ordered best [] with
        | .early r zen =>
          (r, { fetched := fetched, recorded := recorded, zenrows := zen,
                phase1Early := false, phase1BestScore := best.score })
        | .done b zen =>
          ({ b with stores_attempted := attempted },
           { fetched := fetched, recorded := recorded, zenrows := zen,
             phase1Early := false, phase1BestScore := best.score })
      else
        ({ best with stores_attempted := attempted },
         { fetched := fetched, recorded := recorded, zenrows := [],
           phase1Early := false, phase1BestScore := best.score })

/-! ### `extract_breadcrumbs_from_json_ld` (source lines 7479-7530)

Each `<script type="application/ld+json">` element is modelled by the
result of `json.loads(script.string)`: `none` when the script has no
string or raises `JSONDecodeError`, `some v` for the parsed JSON value.
JSON values are a mutual inductive family (value / array / object) so
that all functions over them are structural and computable. -/

mutual
/-- A parsed JSON value (numbers restricted to integers; no claim here
involves fractional numbers). -/
inductive JVal where
  | null
  | bool (b : Bool)
  | num (n : Int)
  | str (s : String)
  | arr (l : JList)
  | obj (l : JPairs)
deriving Repr

/-- A JSON array. -/
inductive JList where
  | nil
  | cons (v : JVal) (t : JList)
deriving Repr

/-- A JSON object (an ordered key-value sequence, as `json.loads` keeps
the last value of a repeated key and our inputs have unique keys). -/
inductive JPairs where
  | nil
  | cons (k : String) (v : JVal) (t : JPairs)
deriving Repr
end

/-- Convert a JSON array to a Lean list. -/
def JList.toList : JList → List JVal
  | .nil => []
  | .cons v t => v :: JList.toList t

/-- Build a JSON array from a Lean list. -/
def JList.ofList : List JVal → JList
  | [] => .nil
  | v :: t => .cons v (JList.ofList t)

/-- The keys of a JSON object, in order. -/
def JPairs.keys : JPairs → List String
  | .nil => []
  | .cons k _ t => k :: JPairs.keys t

/-- Build a JSON object from a Lean list of pairs. -/
def JPairs.ofList : List (String × JVal) → JPairs
  | [] => .nil
  | p :: t => .cons p.1 p.2 (JPairs.ofList t)

/-- Python `dict.get` on a parsed JSON object. -/
def JPairs.lookup : JPairs → String → Option JVal
  | .nil, _ => none
  | .cons k v t, key => if k == key then some v else JPairs.lookup t key

/-- Array literal helper. -/
def jarr (l : List JVal) : JVal := .arr (JList.ofList l)

/-- Object literal helper. -/
def jobj (l : List (String × JVal)) : JVal := .obj (JPairs.ofList l)

/-- Python truthiness of a JSON value. -/
def jTruthy : JVal → Bool
  | .null => false
  | .bool b => b
  | .num n => n ≠ 0
  | .str s => s ≠ ""
  | .arr .nil => false
  | .arr _ => true
  | .obj .nil => false
  | .obj _ => true

mutual
/-- Python `repr` of a JSON value (adequate for the fragment used:
`str(...)` is only consulted through substring/equality tests on
`@type`; string escaping inside quotes is not reproduced). -/
def pyReprJ : JVal → String
  | .null => "None"
  | .bool b => if b then "True" else "False"
  | .num n => toString n
  | .str s => sqStr ++ s ++ sqStr
  | .arr l => "[" ++ joinSep ", " (pyReprL l) ++ "]"
  | .obj l => "\x7b" ++ joinSep ", " (pyReprP l) ++ "\x7d"

/-- `repr` of the elements of a JSON array. -/
def pyReprL : JList → List String
  | .nil => []
  | .cons v t => pyReprJ v :: pyReprL t

/-- `repr` of the entries of a JSON object. -/
def pyReprP : JPairs → List String
  | .nil => []
  | .cons k v t => (sqStr ++ k ++ sqStr ++ ": " ++ pyReprJ v) :: pyReprP t
end

/-- Python `str(...)` of a JSON value (a string renders without quotes). -/
def pyStrJ : JVal → String
  | .str s => s
  | v => pyReprJ v

/-- Python iteration over the `itemListElement` value: lists iterate their
elements, dicts their keys, strings their characters; other values raise
`TypeError` (returned as `none`, aborting the current script). -/
def getItems : JVal → Option (List JVal)
  | .arr l => some l.toList
  | .obj kvs => some (kvs.keys.map JVal.str)
  | .str s => some (s.data.map (fun c => JVal.str (String.mk [c])))
  | _ => none

/-- The inner `for item in items` loop of the BreadcrumbList branch:
collect `item['name']` (or, when `item['item']` is a dict and the name is
falsy, `item['item']['name']`), keeping stripped string names that pass
`is_valid_category_text`.  Names are collected in list order; the
`position` fields are never consulted. -/
def collectNames : List JVal → List String
  | [] => []
  | item :: rest =>
    match item with
    | .obj kvs =>
      let name0 := kvs.lookup "name"
      let name :=
        match kvs.lookup "item" with
        | some (.obj inner) =>
          (if (name0.map jTruthy).getD false then name0 else inner.lookup "name")
        | _ => name0
      match name with
      | some (.str s) =>
        if is_valid_category_text s then pyStrip s :: collectNames rest
        else collectNames rest
      | _ => collectNames rest
    | _ => collectNames rest

/-- The `for obj in candidates` loop of one script: a dict whose
lowercased `str(@type)` contains `"breadcrumb"` yields its collected
item names (when non-empty); otherwise a dict whose type is exactly
`"product"` yields the valid parts of its `category` string split on
`>`.  `none` means fall through to the next script (including the
`TypeError` abort on a non-iterable `itemListElement`). -/
def processCandidates : List JVal → Option (List String)
  | [] => none
  | v :: rest =>
    match v with
    | .obj kvs =>
      let objType := strLower (pyStrJ ((kvs.lookup "@type").getD (.str "")))
      if strContainsB objType "breadcrumb" then
        match getItems ((kvs.lookup "itemListElement").getD (jarr [])) with
        | none => none
        | some items =>
          let crumbs := collectNames items
          if !crumbs.isEmpty then some crumbs else processCandidates rest
      else if objType == "product" then
        match (kvs.lookup "category").getD (.str "") with
        | .str c =>
          if c ≠ "" then
            let valid := ((splitOnChar '>' c).map pyStrip).filter is_valid_category_text
            if !valid.isEmpty then some valid else processCandidates rest
          else processCandidates rest
        | _ => processCandidates rest
      else processCandidates rest
    | _ => processCandidates rest

/-- `extract_breadcrumbs_from_json_ld(soup)`: iterate the scripts; for each
parsed script take the candidates (`data` if it is a list, else `[data]`)
and run the candidate loop; the first non-empty answer wins. -/
def extract_breadcrumbs_from_json_ld : List (Option JVal) → List String
  | [] => []
  | script :: rest =>
    match script with
    | none => extract_breadcrumbs_from_json_ld rest
    | some data =>
      let candidates :=
        match data with
        | .arr l => l.toList
        | v => [v]
      match processCandidates candidates with
      | some r => r
      | none => extract_breadcrumbs_from_json_ld rest

/-! ### `parse_prices_field` (source lines 7581-7698)

The external parsing libraries are oracles: `json.loads` and
`ast.literal_eval` return a Python value or fail with an exception kind
(`jsonDecode` for `json.JSONDecodeError`, `other` for anything else);
the two `re.match` calls return their capture groups or `none`.  The
result type `Except PyErr (Option PyVal)` separates a normally returned
value (`.ok`) from an uncaught exception propagating out (`.error`):
the source wraps every parser call in `try/except Exception` except one
`json.loads` call guarded only by `except json.JSONDecodeError`. -/

/-- Exception kind of the parser oracles. -/
inductive PyErr where
  | jsonDecode
  | other
deriving Repr, DecidableEq

/-- A Python value as produced by `json.loads` / `ast.literal_eval`. -/
inductive PyVal where
  | pynone
  | pybool (b : Bool)
  | pyint (n : Int)
  | pystr (s : String)
  | pylist (l : List PyVal)
  | pydict (l : List (PyVal × PyVal))
  | pyset (l : List PyVal)

/-- Is the value a mapping (a Python `dict`)? -/
def isMappingB : PyVal → Bool
  | .pydict _ => true
  | _ => false

/-- Does the parse result satisfy the claim "a mapping or null"? -/
def isMappingOrNullB : Option PyVal → Bool
  | none => true
  | some v => isMappingB v

/-- The library-call oracles of `parse_prices_field`.
`reMatchStoreLink` models `re.match` with the store/store-link pattern of
the malformed-entry branch; `reMatchStoreRest` models `re.match` with the
final store/rest pattern. -/
structure PyParsers where
  jsonLoads : String → Except PyErr PyVal
  literalEval : String → Except PyErr PyVal
  reMatchStoreLink : String → Option (String × String)
  reMatchStoreRest : String → Option (String × String)

/-- The final `ast.literal_eval` attempt with its nested manual recovery
(every parser call here sits under `except Exception`, so this stage
never propagates an exception). -/
def ppfLastAttempt (P : PyParsers) (s : String) : Except PyErr (Option PyVal) :=
  match P.literalEval s with
  | .ok v => .ok (some v)
  | .error _ =>
    if pyStartsWith s sqStr && strContainsB s (sqStr ++ ":") then
      match P.reMatchStoreRest s with
      | some (store, restStr) =>
        match P.literalEval restStr with
        | .ok sd => .ok (some (.pydict [(.pystr store, sd)]))
        | .error _ => .ok none
      | none => .ok none
    else .ok none

/-- The standard `json.loads` attempt (under `except Exception`). -/
def ppfStdJson (P : PyParsers) (s : String) : Except PyErr (Option PyVal) :=
  match P.jsonLoads s with
  | .ok v => .ok (some v)
  | .error _ => ppfLastAttempt P s

/-- The truncated-data repair branch: when the quote counts are odd, try
the four closing-fix suffixes in order (each under `except Exception`). -/
def ppfTruncatedFix (P : PyParsers) (s : String) : Except PyErr (Option PyVal) :=
  if countChar s sqChr % 2 ≠ 0 || countChar s '"' % 2 ≠ 0 then
    match P.literalEval (s ++ sqStr ++ "\x7d") with
    | .ok v => .ok (some v)
    | .error _ =>
      match P.literalEval (s ++ "\"\x7d") with
      | .ok v => .ok (some v)
      | .error _ =>
        match P.literalEval (s ++ sqStr ++ "\x7d\x7d") with
        | .ok v => .ok (some v)
        | .error _ =>
          match P.literalEval (s ++ "\"\x7d\x7d") with
          | .ok v => .ok (some v)
          | .error _ => ppfStdJson P s
  else ppfStdJson P s

/-- The single-quoted dict-like branch: `literal_eval('{' + s + '}')`
(under `except Exception`). -/
def ppfQuoteDict (P : PyParsers) (s : String) : Except PyErr (Option PyVal) :=
  if pyStartsWith s sqStr && strContainsB s ":" then
    match P.literalEval ("\x7b" ++ s ++ "\x7d") with
    | .ok v => .ok (some v)
    | .error _ => ppfTruncatedFix P s
  else ppfTruncatedFix P s

/-- The brace-wrapped branch: `literal_eval` under `except Exception`,
then `json.loads` under `except json.JSONDecodeError` only — a
`json.loads` failure of any other kind propagates (`.error`). -/
def ppfBraced (P : PyParsers) (s : String) : Except PyErr (Option PyVal) :=
  if pyStartsWith s "\x7b" && pyEndsWith s "\x7d" then
    match P.literalEval s with
    | .ok v => .ok (some v)
    | .error _ =>
      match P.jsonLoads s with
      | .ok v => .ok (some v)
      | .error .jsonDecode => ppfQuoteDict P s
      | .error e => .error e
  else ppfQuoteDict P s

/-- The malformed-entry recovery branch (`s.count("'") < 4`): on a regex
match whose captured URL starts with `http`, return the rebuilt
single-store mapping. -/
def ppfRecovery (P : PyParsers) (s : String) : Option PyVal :=
  if pyStartsWith s sqStr && strContainsB s (sqStr ++ ":") && countChar s sqChr < 4 then
    match P.reMatchStoreLink s with
    | some (store, purl) =>
      if pyStartsWith purl "http" then
        some (.pydict [(.pystr store, .pydict [(.pystr "store_link", .pystr purl)])])
      else none
    | none => none
  else none

/-- `parse_prices_field(val)` restricted to string inputs (`pd.isna` is
false for a string and the dict fast path does not apply): strip, peel a
surrounding double-quote pair, collapse a doubled opening brace, then
run the recovery cascade. -/
def parse_prices_field (P : PyParsers) (val : String) : Except PyErr (Option PyVal) :=
  let s0 := pyStrip val
  if s0 = "" then .ok none
  else
    let s1 :=
      if pyStartsWith s0 "\"" && pyEndsWith s0 "\"" then
        pyStrip (String.mk ((s0.data.drop 1).dropLast))
      else s0
    let s := if pyStartsWith s1 "\x7b\x7b" then String.mk (s1.data.drop 1) else s1
    match ppfRecovery P s with
    | some d => .ok (some d)
    | none => ppfBraced P s

/-! ### `extract_aisles_from_all_stores` (source lines 5607-5833) and the
flat export loop (source lines 8198-8207)

Oracles: `fetch` as before; `urlFb s u` the superdrug/savers/aldi
URL-based fallback; `amazonFb h u` is `scrape_amazon_improved(soup, h, u)`
(the soup is a pure function of `h`); `extractE` as before. -/

/-- Oracle bundle for the all-stores extraction. -/
structure AislesCfg where
  fetch : String → String → Option String
  urlFb : String → String → List String × String
  amazonFb : String → String → List String × String
  extractE : String → String → String → List String × String

/-- One per-store result dict of `extract_aisles_from_all_stores`. -/
structure StoreResult where
  aisle : Option String
  status : String
  score : Int
  debug : String
  url : Option String
deriving Repr, DecidableEq

/-- `PROBLEMATIC_STORES` (source line 5637). -/
def PROBLEMATIC_STORES : List String := ["sainsburys", "asda", "waitrose"]

/-- Python dict update on the ordered association list `all_results`:
replace in place when the key exists, else append. -/
def upsert (res : List (String × StoreResult)) (k : String) (v : StoreResult) :
    List (String × StoreResult) :=
  if res.any (fun p => p.1 == k) then
    res.map (fun p => if p.1 == k then (k, v) else p)
  else res ++ [(k, v)]

/-- The skipped-problematic-store result. -/
def skippedResult (pn : String) (sv : StoreVal) : StoreResult :=
  { aisle := none, status := "skipped_problematic_store", score := 0,
    debug := pn ++ "_intentionally_skipped_not_working_correctly",
    url := match sv with | .dict l => l | .other => none }

/-- The priority ordering loop (source lines 5640-5663): for each priority
store, a problematic store found in the row goes straight into
`all_results` as skipped; otherwise the first row entry normalizing to it
joins `ordered_stores`. -/
def aislesStep1 (prices : List (String × StoreVal)) :
    List String → List (String × StoreResult) → List (String × StoreVal) →
      List (String × StoreResult) × List (String × StoreVal)
  | [], res, ord => (res, ord)
  | p :: ps, res, ord =>
    let pn := normalize_store_name p
    match prices.find? (fun q => normalize_store_name q.1 == pn) with
    | some q =>
      if PROBLEMATIC_STORES.contains pn then
        aislesStep1 prices ps (upsert res pn (skippedResult pn q.2)) ord
      else aislesStep1 prices ps res (ord ++ [q])
    | none => aislesStep1 prices ps res ord

/-- The remaining-stores loop (source lines 5665-5682): row entries whose
normalized name was not collected by the priority loop are appended (or
recorded as skipped when problematic); the `processed_stores` set is
computed once and not updated, as in the source. -/
def aislesStep2 (processed : List String) :
    List (String × StoreVal) → List (String × StoreResult) → List (String × StoreVal) →
      List (String × StoreResult) × List (String × StoreVal)
  | [], res, ord => (res, ord)
  | (name, sv) :: rest, res, ord =>
    let n := normalize_store_name name
    if processed.contains n then aislesStep2 processed rest res ord
    else if PROBLEMATIC_STORES.contains n then
      aislesStep2 processed rest (upsert res n (skippedResult n sv)) ord
    else aislesStep2 processed rest res (ord ++ [(name, sv)])

/-- Amazon poor-quality indicator 1: `^[A-Z][a-z]{1,2}$`. -/
def poorQualityIndicator1 (b : String) : Bool :=
  match b.data with
  | c :: rest =>
    (65 ≤ c.toNat && c.toNat ≤ 90) && rest.all (fun d => 97 ≤ d.toNat && d.toNat ≤ 122) &&
      (rest.length = 1 || rest.length = 2)
  | [] => false

/-- Amazon poor-quality indicator 2: `^[A-Z0-9]{8,}$`. -/
def poorQualityIndicator2 (b : String) : Bool :=
  8 ≤ b.length &&
    b.data.all (fun c => (65 ≤ c.toNat && c.toNat ≤ 90) || (48 ≤ c.toNat && c.toNat ≤ 57))

/-- The five Amazon poor-quality indicators (source lines 5768-5774). -/
def isPoorQuality (c : List String) : Bool :=
  c.any poorQualityIndicator1 ||
  c.any poorQualityIndicator2 ||
  (c.length = 1 && (c.headD "").length < 4) ||
  c.any (fun b => !(strContainsB b ">") && 50 < b.length) ||
  c.all (fun b => ["amazon", "home", "shop", "browse"].contains (strLower b))

/-- The Amazon re-extraction block (source lines 5766-5800), applied to a
non-empty normalized crumb list: on poor quality, try
`scrape_amazon_improved` again, keep the filtered enhanced crumbs when
different and non-empty. -/
def amazonAdjust (cfg : AislesCfg) (h url : String) (crumbs : List String) (debug : String) :
    List String × String :=
  if isPoorQuality crumbs then
    let e := cfg.amazonFb h url
    if !e.1.isEmpty && e.1 ≠ crumbs then
      let ec := e.1.filter (fun c => !isPoorQuality [c])
      if !ec.isEmpty then (ec, debug ++ "_enhanced_" ++ e.2) else (crumbs, debug)
    else (crumbs, debug)
  else (crumbs, debug)

/-- The per-store body of the processing loop (source lines 5685-5833). -/
def processStore (cfg : AislesCfg) (n : String) (sv : StoreVal) : StoreResult :=
  match sv with
  | .other =>
    { aisle := none, status := "invalid_data", score := 0,
      debug := "store_obj_not_dict", url := none }
  | .dict link =>
    match link with
    | none =>
      { aisle := none, status := "no_url", score := 0,
        debug := "missing_or_invalid_url", url := none }
    | some url =>
      if !validUrlB url then
        { aisle := none, status := "no_url", score := 0,
          debug := "missing_or_invalid_url", url := some url }
      else
        let html := cfg.fetch n url
        if htmlInvalid html then
          if ["superdrug", "savers", "aldi", "amazon"].contains n then
            let fb :=
              if n == "amazon" then
                cfg.amazonFb (match html with | some h => h | none => "") url
              else cfg.urlFb n url
            if !fb.1.isEmpty then
              { aisle := some (joinSep " > " fb.1), status := "success",
                score := score_breadcrumb_quality fb.1 n url,
                debug := "enhanced_fallback_" ++ fb.2, url := some url }
            else
              { aisle := none, status := "fetch_failed", score := 0,
                debug := "html_fetch_failed_or_insufficient", url := some url }
          else
            { aisle := none, status := "fetch_failed", score := 0,
              debug := "html_fetch_failed_or_insufficient", url := some url }
        else
          match html with
          | none =>
            { aisle := none, status := "fetch_failed", score := 0,
              debug := "html_fetch_failed_or_insufficient", url := some url }
          | some h =>
            let ex := cfg.extractE n h url
            let crumbs0 := normalize_breadcrumbs ex.1 (some n) (some url) 6
            let adj :=
              if n == "amazon" && !crumbs0.isEmpty then amazonAdjust cfg h url crumbs0 ex.2
              else (crumbs0, ex.2)
            if !adj.1.isEmpty then
              { aisle := some (joinSep " > " adj.1), status := "success",
                score := score_breadcrumb_quality adj.1 n url,
                debug := adj.2, url := some url }
            else
              { aisle := none, status := "no_breadcrumbs", score := 0,
                debug := if adj.2 = "" then "no_breadcrumbs_extracted" else adj.2,
                url := some url }

/-- The processing loop over `ordered_stores` (source lines 5684-5833). -/
def aislesStep3 (cfg : AislesCfg) :
    List (String × StoreVal) → List (String × StoreResult) → List (String × StoreResult)
  | [], res => res
  | (name, sv) :: rest, res =>
    aislesStep3 cfg rest (upsert res (normalize_store_name name) (processStore cfg (normalize_store_name name) sv))

/-- `extract_aisles_from_all_stores(prices_dict, fetcher)`. -/
def extract_aisles_from_all_stores (cfg : AislesCfg) (prices : List (String × StoreVal)) :
    List (String × StoreResult) :=
  if prices.isEmpty then []
  else
    let s1 := aislesStep1 prices SCRAPE_PRIORITY [] []
    let processed := s1.2.map (fun p => normalize_store_name p.1)
    let s2 := aislesStep2 processed prices s1.1 s1.2
    aislesStep3 cfg s2.2 s2.1

/-- One row of the flat export (columns `product code, Store, Store_link, aisle`). -/
structure FlatRow where
  product_code : Option String
  Store : String
  Store_link : Option String
  aisle : String
deriving Repr, DecidableEq

/-- One flat export row: the store upper-cased, the aisle taken from the
result when its status is success and its aisle is truthy, else the
literal `FAILED` (source lines 8199-8207). -/
def flatRowOf (pc : Option String) (p : String × StoreResult) : FlatRow :=
  { product_code := pc, Store := strUpper p.1, Store_link := p.2.url,
    aisle :=
      match p.2.aisle with
      | some a => if p.2.status == "success" && a ≠ "" then a else "FAILED"
      | none => "FAILED" }

/-- The flat export loop: one record per entry of `all_store_results`. -/
def flat_export_rows (pc : Option String) (allResults : List (String × StoreResult)) :
    List FlatRow :=
  allResults.map (flatRowOf pc)

/-- Helper for `dedupFirst`, carrying the names already seen. -/
def dedupFirstAux : List String → List String → List String
  | [], _ => []
  | x :: xs, seen =>
    if seen.contains x then dedupFirstAux xs seen
    else x :: dedupFirstAux xs (x :: seen)

/-- First-occurrence deduplication (used to state how many records a row
emits: one per distinct normalized store name). -/
def dedupFirst (l : List String) : List String := dedupFirstAux l []

/-! ### Spec-side comparison definitions and concrete instances -/

/-- The depth-bonus schedule as the claim words it: +15 at exactly 6
levels, +20 at 5, +10 at 4, and no bonus at any other length. -/
def specDepthBonusClaim (n : Nat) : Int :=
  if n = 6 then 15 else if n = 5 then 20 else if n = 4 then 10 else 0

/-- The depth-bonus schedule as the code implements it (amended claim):
+15 at six or more levels, +20 at exactly 5, +10 at exactly 4. -/
def specDepthBonusAmended (n : Nat) : Int :=
  if 6 ≤ n then 15 else if n = 5 then 20 else if n = 4 then 10 else 0

/-- A seven-element breadcrumb list of neutral three-letter items (no
promo, navigation, store or category token, all lengths equal). -/
def neutralCrumbs7 : List String := ["Aaa", "Bbb", "Ccc", "Ddd", "Eee", "Fff", "Ggg"]

/-- A 500-character body with no block indicator: at exactly `minBytes`
the claim accepts it, the code does not. -/
def body500 : String := String.mk (List.replicate 500 'z')

/-- A 501-character body with no block indicator (accepted by the code). -/
def body501 : String := String.mk (List.replicate 501 'z')

/-- Oracles for the C2 counterexample: every fetch fails without
recording a block; the savers URL-based fallback returns the crumbs that
`scrape_savers_improved` computes from the URL
`https://www.savers.co.uk/wine-sale/half-price/p/123` (path segments
`wine-sale`, `half-price` title-cased; the trailing id is numeric and
dropped). -/
def cfgC2 : RowCfg :=
  { fetch := fun _ _ => none,
    fetchBlocks := fun _ _ => false,
    urlFb := fun s _ =>
      if s == "savers" then (["Wine Sale", "Half Price"], "savers_url_primary")
      else ([], "none"),
    extractE := fun _ _ _ => ([], "none"),
    zenFetch := fun _ _ => none }

/-- A row with savers (priority 6) before tesco (priority 12), both with
valid URLs. -/
def pricesC2 : List (String × StoreVal) :=
  [("savers", .dict (some "https://www.savers.co.uk/wine-sale/half-price/p/123")),
   ("tesco", .dict (some "https://www.tesco.com/groceries/p/1"))]

/-- Oracles for the C3 counterexample: every fetch fails (timeout-style,
with no block indicator seen, so nothing is recorded blocked) and the
renderer returns nothing. -/
def cfgC3 : RowCfg :=
  { fetch := fun _ _ => none, fetchBlocks := fun _ _ => false,
    urlFb := fun _ _ => ([], "none"), extractE := fun _ _ _ => ([], "none"),
    zenFetch := fun _ _ => none }

/-- A one-store row for tesco. -/
def pricesC3 : List (String × StoreVal) := [("tesco", .dict (some "https://www.tesco.com/p/1"))]

/-- A renderer body longer than 500 characters. -/
def zedHtml : String := String.mk (List.replicate 501 'z')

/-- The raw extractor output of the C10 witness: eight duplicated levels
(longer than the six-level cap and full of duplicates). -/
def crumbsC10 : List String := ["Zed", "Zed", "Zed", "Zed", "Zed", "Zed", "Zed", "Zed"]

/-- Oracles for the C10 witness: phase-1 fetches fail and record the
store blocked; the renderer returns a body on which the extractor yields
`crumbsC10`. -/
def cfgC10 : RowCfg :=
  { fetch := fun _ _ => none, fetchBlocks := fun _ _ => true,
    urlFb := fun _ _ => ([], "none"),
    extractE := fun _ _ _ => (crumbsC10, "m"),
    zenFetch := fun _ _ => some zedHtml }

/-- A one-store row for tesco (C10 witness). -/
def pricesC10 : List (String × StoreVal) := [("tesco", .dict (some "https://www.tesco.com/p/1"))]

/-- Oracles for the C4 counterexample: every fetch fails. -/
def cfgC4 : AislesCfg :=
  { fetch := fun _ _ => none, urlFb := fun _ _ => ([], "none"),
    amazonFb := fun _ _ => ([], "none"), extractE := fun _ _ _ => ([], "none") }

/-- A row whose two store keys normalize to the same retailer. -/
def pricesC4 : List (String × StoreVal) :=
  [("Tesco", .dict (some "https://www.tesco.com/a")),
   ("tesco", .dict (some "https://www.tesco.com/b"))]

/-- `json.loads` on the input `"3"` returns the integer 3; on the other
strings exercised here it raises `JSONDecodeError`. -/
def jsonLoadsM : String → Except PyErr PyVal :=
  fun s => if s = "3" then .ok (.pyint 3) else .error .jsonDecode

/-- `ast.literal_eval` model that always raises (kind irrelevant: every
`literal_eval` call site catches `Exception`). -/
def literalEvalM : String → Except PyErr PyVal := fun _ => .error .other

/-- A `re.match` model with no match. -/
def reNoneM : String → Option (String × String) := fun _ => none

/-- The concrete parser oracles for the C5 instances. -/
def pyParsersM : PyParsers :=
  { jsonLoads := jsonLoadsM, literalEval := literalEvalM,
    reMatchStoreLink := reNoneM, reMatchStoreRest := reNoneM }

/-- Items of a JSON-LD BreadcrumbList built from names, with an arbitrary
`position` value at each index. -/
def mkBcItemsAux (posOf : Nat → Int) : Nat → List String → List JVal
  | _, [] => []
  | i, n :: rest =>
    jobj [("position", .num (posOf i)), ("name", .str n)] :: mkBcItemsAux posOf (i + 1) rest

/-- A one-script JSON-LD document with a BreadcrumbList of the given
names and positions. -/
def bcScript (posOf : Nat → Int) (names : List String) : Option JVal :=
  some (jobj [("@type", .str "BreadcrumbList"),
              ("itemListElement", jarr (mkBcItemsAux posOf 0 names))])

/-- A one-script JSON-LD document with a Product carrying a category
string. -/
def productScript (c : String) : Option JVal :=
  some (jobj [("@type", .str "Product"), ("category", .str c)])

/-- The normalized store names of a prices dict. -/
def normsOf (prices : List (String × StoreVal)) : List String :=
  prices.map (fun p => normalize_store_name p.1)

/-- The keys of an `all_results` association list. -/
def keysOf (res : List (String × StoreResult)) : List String := res.map (fun p => p.1)

/-- A per-store result is well-formed when success implies its aisle is
the " > "-join of some non-empty crumb list. -/
def goodResult (r : StoreResult) : Prop :=
  r.status = "success" → ∃ cr : List String, cr ≠ [] ∧ r.aisle = some (joinSep " > " cr)

/-- The ZenRows trace of a phase-2 outcome. -/
def phase2OutZen : Phase2Out → List String
  | .early _ z => z
  | .done _ z => z

/-- The single flat row produced for the duplicate-normalization row
`pricesC4` under the all-fetches-fail oracles `cfgC4`. -/
def rowC4 : FlatRow :=
  { product_code := some "P1", Store := "TESCO",
    Store_link := some "https://www.tesco.com/a", aisle := "FAILED" }

/-! ### Theorems -/

set_option maxRecDepth 100000

/-! helper lemmas -/

theorem charOfNat_toNat_valid (n : Nat) (h : n.isValidChar) : (Char.ofNat n).toNat = n := by
  unfold Char.ofNat
  rw [dif_pos h]
  unfold Char.ofNatAux Char.toNat UInt32.toNat
  simp

theorem charLower_charUpper (c : Char) : charLower (charUpper c) = charLower c := by
  by_cases h : 97 ≤ c.toNat ∧ c.toNat ≤ 122
  · have hv : (c.toNat - 32).isValidChar := by unfold Nat.isValidChar; left; omega
    have ht : (Char.ofNat (c.toNat - 32)).toNat = c.toNat - 32 := charOfNat_toNat_valid _ hv
    rw [charUpper, if_pos h]
    rw [charLower, charLower, ht, if_pos (by omega), if_neg (by omega)]
    have h2 : c.toNat - 32 + 32 = c.toNat := by omega
    rw [h2, Char.ofNat_toNat]
  · rw [charUpper, if_neg h]

theorem charLower_charLower (c : Char) : charLower (charLower c) = charLower c := by
  by_cases h : 65 ≤ c.toNat ∧ c.toNat ≤ 90
  · have hv : (c.toNat + 32).isValidChar := by unfold Nat.isValidChar; left; omega
    have ht : (Char.ofNat (c.toNat + 32)).toNat = c.toNat + 32 := charOfNat_toNat_valid _ hv
    conv_lhs => rw [charLower, charLower, if_pos h]
    rw [ht, if_neg (by omega), charLower, if_pos h]
  · simp only [charLower, if_neg h]

theorem pyTitleAux_map_charLower (l : List Char) : ∀ b, (pyTitleAux b l).map charLower = l.map charLower := by
  induction l with
  | nil => intro b; rfl
  | cons c rest ih =>
    intro b
    simp only [pyTitleAux]
    by_cases h : isAsciiAlpha c = true
    · rw [if_pos h]
      simp only [List.map_cons, ih]
      by_cases hb : b = true
      · subst hb; simp [charLower_charLower]
      · simp at hb; subst hb; simp [charLower_charUpper]
    · rw [if_neg h]
      simp [ih]

theorem strLower_pyTitle (s : String) : strLower (pyTitle s) = strLower s := by
  unfold strLower pyTitle
  simp [pyTitleAux_map_charLower]

theorem pyTitleAux_length (l : List Char) : ∀ b, (pyTitleAux b l).length = l.length := by
  induction l with
  | nil => intro b; rfl
  | cons c rest ih =>
    intro b
    simp only [pyTitleAux]
    by_cases h : isAsciiAlpha c = true
    · rw [if_pos h]; simp [ih]
    · rw [if_neg h]; simp [ih]

theorem string_mk_eq_empty (l : List Char) : String.mk l = "" ↔ l = [] := by
  constructor
  · intro h
    have : (String.mk l).data = ("" : String).data := by rw [h]
    simpa using this
  · intro h; subst h; rfl

theorem pyTitle_ne_empty (s : String) (h : s ≠ "") : pyTitle s ≠ "" := by
  unfold pyTitle
  intro hc
  apply h
  have hd := (string_mk_eq_empty _).mp hc
  have hl := pyTitleAux_length s.data false
  rw [hd] at hl
  simp only [List.length_nil] at hl
  have hnil : s.data = [] := List.eq_nil_of_length_eq_zero hl.symm
  cases s with
  | mk d =>
    simp only at hnil
    rw [hnil]

theorem is_valid_ne_empty (t : String) (h : is_valid_category_text t = true) : t ≠ "" := by
  intro he
  subst he
  simp [is_valid_category_text] at h

theorem strLower_eq_empty (s : String) (h : strLower s = "") : s = "" := by
  unfold strLower at h
  have hd := (string_mk_eq_empty _).mp h
  have : s.data = [] := by
    cases hmap : s.data with
    | nil => rfl
    | cons c t => rw [hmap] at hd; simp at hd
  cases s with
  | mk d => simp only at this; rw [this]

theorem contains_false_not_mem {l : List String} {a : String} (h : l.contains a = false) : a ∉ l := by
  intro hm
  have he : l.elem a = true := List.elem_iff.mpr hm
  unfold List.contains at h
  rw [he] at h
  exact Bool.noConfusion h

theorem append_singleton_nodup {acc : List String} {c : String}
    (h2 : acc.Nodup) (hc : acc.contains c = false) : (acc ++ [c]).Nodup := by
  rw [List.nodup_append]
  refine ⟨h2, List.nodup_singleton _, ?_⟩
  intro a ha hb
  simp at hb
  subst hb
  exact contains_false_not_mem hc ha

/-- The tail of one appending iteration of `normLoop`, factored out so the
main induction stays readable. -/
theorem normAppendStep (st : List String) (maxL : Nat) (rest acc : List String) (c2 : String)
    (hc2 : c2 ≠ "") (h1 : acc.length < maxL) (h2 : acc.Nodup) (h3 : ∀ s ∈ acc, s ≠ "")
    (ih : ∀ acc2 : List String, acc2.length < maxL → acc2.Nodup → (∀ s ∈ acc2, s ≠ "") →
      (normLoop st maxL rest acc2).length ≤ maxL ∧ (normLoop st maxL rest acc2).Nodup ∧
        ∀ s ∈ normLoop st maxL rest acc2, s ≠ "") :
    (if maxL ≤ (if acc.contains c2 then acc else acc ++ [c2]).length then
        (if acc.contains c2 then acc else acc ++ [c2])
      else normLoop st maxL rest (if acc.contains c2 then acc else acc ++ [c2])).length ≤ maxL ∧
    (if maxL ≤ (if acc.contains c2 then acc else acc ++ [c2]).length then
        (if acc.contains c2 then acc else acc ++ [c2])
      else normLoop st maxL rest (if acc.contains c2 then acc else acc ++ [c2])).Nodup ∧
    ∀ s ∈ (if maxL ≤ (if acc.contains c2 then acc else acc ++ [c2]).length then
        (if acc.contains c2 then acc else acc ++ [c2])
      else normLoop st maxL rest (if acc.contains c2 then acc else acc ++ [c2])), s ≠ "" := by
  by_cases hcont : acc.contains c2 = true
  · simp only [if_pos hcont]
    have hnle : ¬ maxL ≤ acc.length := Nat.not_le.mpr h1
    simp only [if_neg hnle]
    exact ih acc h1 h2 h3
  · simp only [if_neg hcont]
    have hlen : (acc ++ [c2]).length = acc.length + 1 := by simp
    have hnodup : (acc ++ [c2]).Nodup :=
      append_singleton_nodup h2 (Bool.not_eq_true (acc.contains c2) ▸ hcont)
    have hne : ∀ s ∈ acc ++ [c2], s ≠ "" := by
      intro s hs
      rw [List.mem_append] at hs
      rcases hs with hs | hs
      · exact h3 s hs
      · simp at hs; subst hs; exact hc2
    by_cases hmax : maxL ≤ (acc ++ [c2]).length
    · simp only [if_pos hmax]
      exact ⟨by omega, hnodup, hne⟩
    · simp only [if_neg hmax]
      exact ih (acc ++ [c2]) (by omega) hnodup hne

set_option maxHeartbeats 2000000 in
theorem normLoop_inv (st : List String) (maxL : Nat) (bc : List String) :
    ∀ acc : List String, acc.length < maxL → acc.Nodup → (∀ s ∈ acc, s ≠ "") →
      (normLoop st maxL bc acc).length ≤ maxL ∧ (normLoop st maxL bc acc).Nodup ∧
        ∀ s ∈ normLoop st maxL bc acc, s ≠ "" := by
  induction bc with
  | nil =>
    intro acc h1 h2 h3
    simp only [normLoop]
    exact ⟨Nat.le_of_lt h1, h2, h3⟩
  | cons crumb rest ih =>
    intro acc h1 h2 h3
    simp only [normLoop]
    split
    · exact ih acc h1 h2 h3
    · split
      · exact ih acc h1 h2 h3
      · split
        · exact ih acc h1 h2 h3
        · split
          · exact ih acc h1 h2 h3
          · rename_i hc0 hval hgen hstore
            have hv : is_valid_category_text (collapseWs (pyStrip crumb)) = true := by
              revert hval; simp
            have hc1ne : collapseWs (pyStrip crumb) ≠ "" := is_valid_ne_empty _ hv
            apply normAppendStep st maxL rest acc _ ?_ h1 h2 h3 ih
            split
            · split
              · exact pyTitle_ne_empty _ hc1ne
              · exact hc1ne
            · exact hc1ne

/-- C1: for every input list of raw breadcrumb strings, every retailer id
and every URL, `normalize_breadcrumbs` returns a list of length at most 6
with no duplicate elements and no empty strings. -/
theorem normalize_breadcrumbs_invariants (bc : List String) (store : Option String)
    (url : Option String) :
    (normalize_breadcrumbs bc store url 6).length ≤ 6 ∧
      (normalize_breadcrumbs bc store url 6).Nodup ∧
      ∀ s ∈ normalize_breadcrumbs bc store url 6, s ≠ "" := by
  unfold normalize_breadcrumbs
  split
  · exact ⟨by simp, List.nodup_nil, by simp⟩
  · exact normLoop_inv (storeTerms store) 6 bc [] (by simp) List.nodup_nil (by simp)

/-- Witness for C1 at a concrete input (a list with a duplicate and more
raw entries than survive). -/
theorem normalize_breadcrumbs_invariants_witness :
    (normalize_breadcrumbs ["Home", "Fresh Food", "Dairy", "Milk", "Milk", " "]
        (some "tesco") (some "https://www.tesco.com/p/1") 6).length ≤ 6 ∧
      ¬ ("" ∈ normalize_breadcrumbs ["Home", "Fresh Food", "Dairy", "Milk", "Milk", " "]
        (some "tesco") (some "https://www.tesco.com/p/1") 6) :=
  ⟨(normalize_breadcrumbs_invariants _ _ _).1,
   fun h => (normalize_breadcrumbs_invariants ["Home", "Fresh Food", "Dairy", "Milk", "Milk", " "]
      (some "tesco") (some "https://www.tesco.com/p/1")).2.2 "" h rfl⟩

/-- One appending step of the loop preserves the no-store-term property. -/
theorem normLoopStoreStep (st : List String) (maxL : Nat) (rest acc : List String)
    (term : String) (c2 : String)
    (hc2 : strContainsB (strLower c2) term = false)
    (hacc : ∀ s ∈ acc, strContainsB (strLower s) term = false)
    (ih : ∀ acc2, (∀ s ∈ acc2, strContainsB (strLower s) term = false) →
      ∀ s ∈ normLoop st maxL rest acc2, strContainsB (strLower s) term = false) :
    ∀ s ∈ (if maxL ≤ (if acc.contains c2 then acc else acc ++ [c2]).length then
        (if acc.contains c2 then acc else acc ++ [c2])
      else normLoop st maxL rest (if acc.contains c2 then acc else acc ++ [c2])),
      strContainsB (strLower s) term = false := by
  have hacc2 : ∀ s ∈ (if acc.contains c2 then acc else acc ++ [c2]),
      strContainsB (strLower s) term = false := by
    split
    · exact hacc
    · intro s hs
      rw [List.mem_append] at hs
      rcases hs with hs | hs
      · exact hacc s hs
      · simp only [List.mem_singleton] at hs
        subst hs
        exact hc2
  by_cases hcont : acc.contains c2 = true
  · simp only [if_pos hcont] at hacc2 ⊢
    split
    · exact hacc2
    · exact ih _ hacc2
  · simp only [if_neg hcont] at hacc2 ⊢
    split
    · exact hacc2
    · exact ih _ hacc2

/-- The store-name filter inside the loop: no collected element contains a
non-empty store term (case-insensitively). -/
theorem normLoop_store_term (st : List String) (maxL : Nat) (term : String)
    (hterm : term ∈ st) (hne : term ≠ "") (bc : List String) :
    ∀ acc, (∀ s ∈ acc, strContainsB (strLower s) term = false) →
      ∀ s ∈ normLoop st maxL bc acc, strContainsB (strLower s) term = false := by
  induction bc with
  | nil =>
    intro acc hacc
    simp only [normLoop]
    exact hacc
  | cons crumb rest ih =>
    intro acc hacc
    simp only [normLoop]
    split
    · exact ih acc hacc
    · split
      · exact ih acc hacc
      · split
        · exact ih acc hacc
        · split
          · exact ih acc hacc
          · rename_i hc0 hval hgen hstore
            have hanyf : (st.any fun t => t ≠ "" && strContainsB (strLower (collapseWs (pyStrip crumb))) t) = false := by
              revert hstore; simp
            have hterm2 : strContainsB (strLower (collapseWs (pyStrip crumb))) term = false := by
              have := List.any_eq_false.mp hanyf term hterm
              simp [hne] at this
              exact this
            split
            · split
              · exact normLoopStoreStep st maxL rest acc term _
                  (by rw [strLower_pyTitle]; exact hterm2) hacc ih
              · exact normLoopStoreStep st maxL rest acc term _ hterm2 hacc ih
            · exact normLoopStoreStep st maxL rest acc term _ hterm2 hacc ih

/-- C8 (amended): a breadcrumb item containing the retailer name
(case-insensitively) is dropped by the normalizer regardless of its
position — no element of the output contains the lowercased store id. -/
theorem normalize_breadcrumbs_drops_store_name (bc : List String) (store : String)
    (url : Option String) (hs : store ≠ "") :
    ∀ s ∈ normalize_breadcrumbs bc (some store) url 6,
      strContainsB (strLower s) (strLower store) = false := by
  unfold normalize_breadcrumbs
  split
  · simp
  · refine normLoop_store_term _ _ (strLower store) ?_ ?_ bc [] (by simp)
    · simp only [storeTerms, if_neg hs]
      exact List.mem_cons_self _ _
    · intro h
      exact hs (strLower_eq_empty _ h)

/-- Witness for C8 (amended): in a concrete run with store `tesco`, the
surviving element `Milk` does not contain the store name. -/
theorem normalize_breadcrumbs_drops_store_name_witness :
    strContainsB (strLower "Milk") (strLower "tesco") = false :=
  normalize_breadcrumbs_drops_store_name ["Tesco Groceries", "Milk"] "tesco" none
    (by decide) "Milk" (by decide)

/-- C8 counterexample: `Tesco Groceries` contains the retailer name, is
the first element, and is dropped anyway (the claim predicts it is kept). -/
theorem normalize_breadcrumbs_first_element_dropped :
    normalize_breadcrumbs ["Tesco Groceries", "Milk"] (some "tesco") none 6 = ["Milk"] ∧
    strContainsB (strLower "Tesco Groceries") (strLower "tesco") = true ∧
    "Tesco Groceries" ∉ normalize_breadcrumbs ["Tesco Groceries", "Milk"] (some "tesco") none 6 := by
  refine ⟨by decide, by decide, by decide⟩

/-- C9 counterexample: a seven-level breadcrumb list receives the +15
depth bonus, while the claim predicts no depth bonus away from lengths
4, 5 and 6; the full scorer confirms it (neutral items, score
50 + 15 length bonus + 15 depth bonus = 80). -/
theorem depthBonus_seven_levels :
    depthBonus 7 = 15 ∧ specDepthBonusClaim 7 = 0 ∧
    depthBonus 7 ≠ specDepthBonusClaim 7 ∧
    crumbAdjustSum "tesco" 0 neutralCrumbs7 = 0 ∧
    hierarchyAdjust neutralCrumbs7 = 0 ∧
    perfectPatternBonus neutralCrumbs7 = 0 ∧
    lengthAdjust neutralCrumbs7.length = 15 ∧
    score_breadcrumb_quality neutralCrumbs7 "tesco" "" = 80 := by
  refine ⟨by decide, by decide, by decide, by decide, by decide, by decide, by decide, by decide⟩

/-- C9 (amended): the depth bonus is +15 at six **or more** levels, +20 at
exactly five, +10 at exactly four, and 0 below four. -/
theorem depthBonus_matches_amended : ∀ n : Nat, depthBonus n = specDepthBonusAmended n := by
  intro n
  simp only [depthBonus, specDepthBonusAmended, SCORE_THRESHOLDS_level_6_bonus,
    SCORE_THRESHOLDS_deep_hierarchy_bonus]
  split_ifs <;> first | rfl | omega

/-- C6 counterexample: a body of exactly `minBytes` (500) characters with
no block indicator is accepted by the claim but not by the code (the code
requires strictly more than 500). -/
theorem fetchBodyVerdict_at_minBytes :
    fetchBodyVerdict (some body500) = .invalidNext ∧
    acceptSpecC6 body500 = true ∧ body500.length = 500 := by
  refine ⟨by decide, by decide, by decide⟩

/-- C6 (amended): a fetched body is accepted (cached and returned as
success) exactly when its length is **strictly greater** than 500 and
the first 2000 lowercased characters contain no block indicator; with an
indicator present it is recorded blocked and the cascade continues, and a
short body just continues the cascade. -/
theorem fetchBodyVerdict_spec (h : String) :
    (fetchBodyVerdict (some h) = .accepted ↔
      500 < h.length ∧
        (blocked_indicators.any fun ind => strContainsB (strLower (pyTake 2000 h)) ind) = false) ∧
    (fetchBodyVerdict (some h) = .blockedNext ↔
      500 < h.length ∧
        (blocked_indicators.any fun ind => strContainsB (strLower (pyTake 2000 h)) ind) = true) ∧
    (fetchBodyVerdict (some h) = .invalidNext ↔ ¬ 500 < h.length) := by
  unfold fetchBodyVerdict
  dsimp only
  by_cases h5 : 500 < h.length
  · have hne2 : h ≠ "" := by
      intro he
      subst he
      simp at h5
    have hcond : (decide (h ≠ "") && decide (500 < h.length)) = true := by simp [h5, hne2]
    rw [if_pos hcond]
    by_cases hany : (blocked_indicators.any fun ind => strContainsB (strLower (pyTake 2000 h)) ind) = true
    · rw [if_pos hany]
      refine ⟨⟨fun hc => BodyVerdict.noConfusion hc, fun hc => ?_⟩,
        ⟨fun _ => ⟨h5, hany⟩, fun _ => rfl⟩,
        ⟨fun hc => BodyVerdict.noConfusion hc, fun hc => absurd h5 hc⟩⟩
      rw [hc.2] at hany
      exact Bool.noConfusion hany
    · have hanyf : (blocked_indicators.any fun ind => strContainsB (strLower (pyTake 2000 h)) ind) = false := by
        revert hany
        cases blocked_indicators.any fun ind => strContainsB (strLower (pyTake 2000 h)) ind
        · intro _; rfl
        · intro hx; exact absurd rfl hx
      rw [if_neg hany]
      refine ⟨⟨fun _ => ⟨h5, hanyf⟩, fun _ => rfl⟩,
        ⟨fun hc => BodyVerdict.noConfusion hc, fun hc => ?_⟩,
        ⟨fun hc => BodyVerdict.noConfusion hc, fun hc => absurd h5 hc⟩⟩
      rw [hc.2] at hanyf
      exact Bool.noConfusion hanyf
  · have hcond : ¬ ((decide (h ≠ "") && decide (500 < h.length)) = true) := by simp [h5]
    rw [if_neg hcond]
    refine ⟨⟨fun hc => BodyVerdict.noConfusion hc, fun hc => absurd hc.1 h5⟩,
      ⟨fun hc => BodyVerdict.noConfusion hc, fun hc => absurd hc.1 h5⟩,
      ⟨fun _ => h5, fun _ => rfl⟩⟩

/-- Witness for C6 (amended): a 501-character indicator-free body is
accepted. -/
theorem fetchBodyVerdict_spec_witness : fetchBodyVerdict (some body501) = .accepted :=
  (fetchBodyVerdict_spec body501).1.mpr ⟨by decide, by decide⟩

theorem ppfLastAttempt_ok (P : PyParsers) (s : String) : ∃ r, ppfLastAttempt P s = .ok r := by
  unfold ppfLastAttempt
  (repeat' split) <;> exact ⟨_, rfl⟩

theorem ppfStdJson_ok (P : PyParsers) (s : String) : ∃ r, ppfStdJson P s = .ok r := by
  unfold ppfStdJson
  split
  · exact ⟨_, rfl⟩
  · exact ppfLastAttempt_ok P s

theorem ppfTruncatedFix_ok (P : PyParsers) (s : String) : ∃ r, ppfTruncatedFix P s = .ok r := by
  unfold ppfTruncatedFix
  (repeat' split) <;> first
    | exact ⟨_, rfl⟩
    | exact ppfStdJson_ok P s

theorem ppfQuoteDict_ok (P : PyParsers) (s : String) : ∃ r, ppfQuoteDict P s = .ok r := by
  unfold ppfQuoteDict
  (repeat' split) <;> first
    | exact ⟨_, rfl⟩
    | exact ppfTruncatedFix_ok P s

theorem ppfBraced_ok (P : PyParsers)
    (hJ : ∀ t e, P.jsonLoads t = .error e → e = .jsonDecode) (s : String) :
    ∃ r, ppfBraced P s = .ok r := by
  unfold ppfBraced
  split
  · split
    · exact ⟨_, rfl⟩
    · cases hj : P.jsonLoads s with
      | ok v => exact ⟨some v, rfl⟩
      | error e =>
        have he := hJ s e hj
        subst he
        exact ppfQuoteDict_ok P s
  · exact ppfQuoteDict_ok P s

/-- C5 (amended): `parse_prices_field` returns normally on every string
input, provided `json.loads` fails only with `JSONDecodeError` (the one
parser call not guarded by a bare `except`); the returned value may be
any parsed Python value, not only a mapping or null. -/
theorem parse_prices_field_total (P : PyParsers)
    (hJ : ∀ t e, P.jsonLoads t = .error e → e = .jsonDecode) (val : String) :
    ∃ r, parse_prices_field P val = .ok r := by
  simp only [parse_prices_field]
  split
  · exact ⟨none, rfl⟩
  · split
    · exact ⟨_, rfl⟩
    · exact ppfBraced_ok P hJ _

/-- Witness for C5 (amended) with the concrete library models. -/
theorem parse_prices_field_total_witness : ∃ r, parse_prices_field pyParsersM "abc" = .ok r :=
  parse_prices_field_total pyParsersM
    (by
      intro t e h
      dsimp only [pyParsersM] at h
      unfold jsonLoadsM at h
      split at h
      · exact Except.noConfusion h
      · cases h
        rfl)
    "abc"

/-- C5 counterexample: the string input `3` parses (via `json.loads`) to
the integer 3, which the function returns — neither a mapping nor null,
so the claim "returns either a mapping or null" fails. -/
theorem parse_prices_field_nonmapping :
    parse_prices_field pyParsersM "3" = .ok (some (.pyint 3)) ∧
    isMappingOrNullB (some (.pyint 3)) = false :=
  ⟨rfl, rfl⟩

theorem toList_ofList (l : List JVal) : JList.toList (JList.ofList l) = l := by
  induction l with
  | nil => rfl
  | cons v t ih => simp [JList.ofList, JList.toList, ih]

theorem collectNames_mkBcItems (posOf : Nat → Int) (names : List String) :
    ∀ i, collectNames (mkBcItemsAux posOf i names) =
      names.filterMap (fun n => if is_valid_category_text n then some (pyStrip n) else none) := by
  induction names with
  | nil => intro i; rfl
  | cons n rest ih =>
    intro i
    simp only [mkBcItemsAux, collectNames, jobj, JPairs.ofList, JPairs.lookup, List.filterMap]
    have h1 : (("position" : String) == "name") = false := by decide
    have h2 : (("name" : String) == "name") = true := by decide
    have h3 : (("position" : String) == "item") = false := by decide
    have h4 : (("name" : String) == "item") = false := by decide
    simp only [h1, h2, h3, h4, if_false, if_true, Bool.false_eq_true, JPairs.lookup]
    split
    · simp [ih (i + 1)]
    · simp [ih (i + 1)]

theorem not_bang_isEmpty {l : List String} (h : ¬ ((!l.isEmpty) = true)) : l = [] := by
  cases l with
  | nil => rfl
  | cons a t => simp [List.isEmpty] at h

/-- C7 (amended): the JSON-LD extractor matches any object whose
lowercased `str(@type)` contains "breadcrumb" and collects the valid
item names **in list order, ignoring the position fields**; for a
Product object it splits the `category` string on `>` **only** (no `/`
or `|` delimiters, no `breadcrumb` property support), trimming and
validity-filtering the parts. -/
theorem extract_json_ld_spec :
    (∀ (posOf : Nat → Int) (names : List String),
      extract_breadcrumbs_from_json_ld [bcScript posOf names] =
        names.filterMap (fun n => if is_valid_category_text n then some (pyStrip n) else none)) ∧
    (∀ c : String,
      extract_breadcrumbs_from_json_ld [productScript c] =
        ((splitOnChar '>' c).map pyStrip).filter is_valid_category_text) := by
  constructor
  · intro posOf names
    have h2 : strContainsB (strLower (pyStrJ (JVal.str "BreadcrumbList"))) "breadcrumb" = true := by
      decide
    have e1 : (("@type" : String) == "@type") = true := by decide
    have e2 : (("itemListElement" : String) == "@type") = false := by decide
    have e3 : (("@type" : String) == "itemListElement") = false := by decide
    have e4 : (("itemListElement" : String) == "itemListElement") = true := by decide
    simp only [extract_breadcrumbs_from_json_ld, bcScript, jobj, jarr, JPairs.ofList,
      processCandidates, JPairs.lookup, e1, e2, e3, e4, if_true, if_false, Bool.false_eq_true,
      eq_self_iff_true, h2, Option.getD, getItems]
    rw [toList_ofList, collectNames_mkBcItems posOf names 0]
    by_cases hval : (!(names.filterMap (fun n => if is_valid_category_text n then some (pyStrip n) else none)).isEmpty) = true
    · rw [if_pos hval]
    · rw [if_neg hval]
      rw [not_bang_isEmpty hval]
  · intro c
    by_cases hc : c = ""
    · subst hc
      decide
    · have h2 : strContainsB (strLower (pyStrJ (JVal.str "Product"))) "breadcrumb" = false := by
        decide
      have h3 : (strLower (pyStrJ (JVal.str "Product")) == "product") = true := by decide
      have e1 : (("@type" : String) == "@type") = true := by decide
      have e2 : (("category" : String) == "@type") = false := by decide
      have e3 : (("@type" : String) == "category") = false := by decide
      have e4 : (("category" : String) == "category") = true := by decide
      simp only [extract_breadcrumbs_from_json_ld, productScript, jobj, JPairs.ofList,
        processCandidates, JPairs.lookup, e1, e2, e3, e4, if_true, if_false, Bool.false_eq_true,
        eq_self_iff_true, h2, h3, Option.getD]
      rw [if_pos hc]
      by_cases hval : (!(((splitOnChar '>' c).map pyStrip).filter is_valid_category_text).isEmpty) = true
      · rw [if_pos hval]
      · rw [if_neg hval]
        rw [not_bang_isEmpty hval]

/-- C7 counterexample: a Product whose category is `Health/Beauty` is not
split on `/` (the claim says the `/` delimiter is supported), and a
BreadcrumbList with positions 3 and 1 is collected in document order,
not in position order. -/
theorem extract_json_ld_counterexample :
    extract_breadcrumbs_from_json_ld [productScript "Health/Beauty"] = ["Health/Beauty"] ∧
    ["Health/Beauty"] ≠ ["Health", "Beauty"] ∧
    extract_breadcrumbs_from_json_ld
      [some (jobj [("@type", .str "BreadcrumbList"),
        ("itemListElement", jarr
          [jobj [("position", .num 3), ("name", .str "Milk")],
           jobj [("position", .num 1), ("name", .str "Dairy")]])])] = ["Milk", "Dairy"] ∧
    (["Milk", "Dairy"] : List String) ≠ ["Dairy", "Milk"] := by
  refine ⟨by decide, by decide, by decide, by decide⟩

theorem bang_isEmpty_of_ne {cr : List String} (hne : cr ≠ []) : (!cr.isEmpty) = true := by
  cases cr with
  | nil => exact absurd rfl hne
  | cons a t => rfl

/-- C2 (amended): in Phase 1 the dispatcher returns immediately on the
first main-path success scoring at least 50, fetching nothing further;
a main-path success scoring below 50 only updates the best-so-far and
processing continues with the remaining retailers.  Exception (the
correction): when the fetched body is invalid and the store is
superdrug/savers/aldi, a non-empty URL-based fallback extraction returns
immediately regardless of its score. -/
theorem phase1_early_stop_spec :
    (∀ (cfg : RowCfg) (total : Nat) (store url h dbg : String) (cr0 cr : List String)
      (rest : List (String × StoreVal)) (attempted : Nat) (best : RowResult)
      (recorded fetched : List String),
      validUrlB url = true →
      cfg.fetch store url = some h →
      htmlInvalid (some h) = false →
      cfg.extractE store h url = (cr0, dbg) →
      normalize_breadcrumbs cr0 (some store) (some url) 6 = cr →
      cr ≠ [] →
      (50 ≤ score_breadcrumb_quality cr store url →
        phase1Loop cfg total ((store, .dict (some url)) :: rest) attempted best recorded fetched =
          .early (phase1MainResult store url cr dbg (attempted + 1) total) (attempted + 1)
            (recorded ++ if cfg.fetchBlocks store url then [store] else []) (fetched ++ [store])) ∧
      (score_breadcrumb_quality cr store url < 50 →
        phase1Loop cfg total ((store, .dict (some url)) :: rest) attempted best recorded fetched =
          phase1Loop cfg total rest (attempted + 1)
            (if best.score < score_breadcrumb_quality cr store url then
              phase1MainResult store url cr dbg (attempted + 1) total
            else best)
            (recorded ++ if cfg.fetchBlocks store url then [store] else []) (fetched ++ [store]))) ∧
    (∀ (cfg : RowCfg) (total : Nat) (store url : String)
      (rest : List (String × StoreVal)) (attempted : Nat) (best : RowResult)
      (recorded fetched : List String),
      validUrlB url = true →
      htmlInvalid (cfg.fetch store url) = true →
      urlFallbackStores.contains store = true →
      (cfg.urlFb store url).1 ≠ [] →
      phase1Loop cfg total ((store, .dict (some url)) :: rest) attempted best recorded fetched =
        .early (phase1FallbackResult store url (cfg.urlFb store url).1 (cfg.urlFb store url).2
            (attempted + 1) total) (attempted + 1)
          (recorded ++ if cfg.fetchBlocks store url then [store] else []) (fetched ++ [store])) := by
  constructor
  · intro cfg total store url h dbg cr0 cr rest attempted best recorded fetched hu hf hv hx hn hne
    constructor
    · intro hs
      simp only [phase1Loop, hu, Bool.not_true, Bool.false_eq_true, if_false, hf, hv, hx, hn]
      rw [if_pos (bang_isEmpty_of_ne hne)]
      rw [if_pos (show (50 : Int) ≤ (phase1MainResult store url cr dbg (attempted + 1) total).score from hs)]
    · intro hs
      simp only [phase1Loop, hu, Bool.not_true, Bool.false_eq_true, if_false, hf, hv, hx, hn]
      rw [if_pos (bang_isEmpty_of_ne hne)]
      rw [if_neg (show ¬ ((50 : Int) ≤ (phase1MainResult store url cr dbg (attempted + 1) total).score) from
        not_le.mpr hs)]
      rfl
  · intro cfg total store url rest attempted best recorded fetched hu hinv hfb hfbne
    simp only [phase1Loop, hu, Bool.not_true, Bool.false_eq_true, if_false, hinv, if_true, hfb]
    rw [if_pos (bang_isEmpty_of_ne hfbne)]

/-- Witness for C2 (amended): a concrete main-path success scoring 100
early-stops with only that store fetched. -/
theorem phase1_early_stop_spec_witness :
    phase1Loop
      ({ fetch := fun _ _ => some zedHtml, fetchBlocks := fun _ _ => false,
         urlFb := fun _ _ => ([], "none"),
         extractE := fun _ _ _ => (["Fresh Food", "Dairy", "Milk"], "json_ld"),
         zenFetch := fun _ _ => none } : RowCfg) 1
      [("tesco", .dict (some "https://www.tesco.com/p/1"))] 0 (initialBestResult 1) [] [] =
      .early (phase1MainResult "tesco" "https://www.tesco.com/p/1" ["Fresh Food", "Dairy", "Milk"]
          "json_ld" 1 1) 1 [] ["tesco"] :=
  ((phase1_early_stop_spec.1
      ({ fetch := fun _ _ => some zedHtml, fetchBlocks := fun _ _ => false,
         urlFb := fun _ _ => ([], "none"),
         extractE := fun _ _ _ => (["Fresh Food", "Dairy", "Milk"], "json_ld"),
         zenFetch := fun _ _ => none } : RowCfg) 1 "tesco" "https://www.tesco.com/p/1" zedHtml
      "json_ld" ["Fresh Food", "Dairy", "Milk"] ["Fresh Food", "Dairy", "Milk"] [] 0
      (initialBestResult 1) [] [] (by decide) rfl (by decide) rfl (by decide) (by decide)).1
    (by decide))

/-- C2 counterexample: with savers first and tesco second, a failed
savers fetch plus the URL-based fallback (crumbs `Wine Sale`, `Half
Price`, scoring 0) makes Phase 1 return immediately with a success
outcome scoring below 50, and tesco — present with a valid URL — is
never fetched, contradicting "for a success outcome whose score is
below 50 it keeps only the highest-scoring outcome so far and continues
to the next retailer". -/
theorem phase1_below_threshold_returns :
    (process_row_with_priority_system cfgC2 [] pricesC2).1.status = "success" ∧
    (process_row_with_priority_system cfgC2 [] pricesC2).1.score = 0 ∧
    (process_row_with_priority_system cfgC2 [] pricesC2).2.fetched = ["savers"] ∧
    ("tesco" ∉ (process_row_with_priority_system cfgC2 [] pricesC2).2.fetched) ∧
    pricesC2.map (fun p => p.1) = ["savers", "tesco"] := by
  refine ⟨by decide, by decide, by decide, by decide, by decide⟩

/-- The ZenRows trace of the phase-2 loop only ever gains stores that are
in the blocked set. -/
theorem phase2Loop_zen_subset (cfg : RowCfg) (total : Nat) (blocked : List String) (att : Nat)
    (stores : List (String × StoreVal)) :
    ∀ (best : RowResult) (zen : List String),
      (∀ s ∈ zen, s ∈ blocked) →
      ∀ s ∈ phase2OutZen (phase2Loop cfg total blocked att stores best zen), s ∈ blocked := by
  induction stores with
  | nil =>
    intro best zen hz
    simpa [phase2Loop, phase2OutZen] using hz
  | cons p rest ih =>
    intro best zen hz
    obtain ⟨store, sv⟩ := p
    simp only [phase2Loop]
    split
    · exact ih best zen hz
    · rename_i hcont
      have hstore : store ∈ blocked := by
        have hc2 : blocked.contains store = true := by
          revert hcont
          cases blocked.contains store
          · intro hx
            exact absurd rfl hx
          · intro _
            rfl
        exact List.elem_iff.mp hc2
      have hz2 : ∀ s ∈ zen ++ [store], s ∈ blocked := by
        intro s hs
        rw [List.mem_append] at hs
        rcases hs with hs | hs
        · exact hz s hs
        · simp at hs
          subst hs
          exact hstore
      (repeat' split) <;>
        first
          | exact ih _ _ hz
          | exact ih _ _ hz2
          | exact hz2

/-- C3 (amended): the external renderer is invoked in phase 2 only for
retailers present in the fetcher's process-wide blocked set — the stores
recorded blocked during this row's phase 1 **or already in the set when
the row started** (the set persists across rows) — and only when phase 1
did not return early and its best score is below 50. -/
theorem phase2_blocked_only (cfg : RowCfg) (initBlocked : List String)
    (prices : List (String × StoreVal)) (r : RowResult) (tr : RowTrace)
    (heq : process_row_with_priority_system cfg initBlocked prices = (r, tr)) :
    (∀ s ∈ tr.zenrows, s ∈ initBlocked ∨ s ∈ tr.recorded) ∧
    (tr.zenrows ≠ [] → tr.phase1Early = false ∧ tr.phase1BestScore < 50) := by
  simp only [process_row_with_priority_system] at heq
  split at heq
  · injection heq with h1 h2
    subst h2
    constructor
    · intro s hs
      simp at hs
    · intro hz
      simp at hz
  · split at heq
    · rename_i r2 att recorded fetched heq1
      injection heq with h1 h2
      subst h2
      constructor
      · intro s hs
        simp at hs
      · intro hz
        simp at hz
    · rename_i best att recorded fetched heq1
      split at heq
      · rename_i hcond
        split at heq
        · rename_i r2 zen heq2
          injection heq with h1 h2
          subst h2
          constructor
          · intro s hs
            simp only at hs
            have hsub := phase2Loop_zen_subset cfg (order_store_items prices).length
              (initBlocked ++ recorded) att (order_store_items prices) best [] (by simp)
            rw [heq2] at hsub
            have hmem := hsub s (by simpa [phase2OutZen] using hs)
            rw [List.mem_append] at hmem
            exact hmem
          · intro hz
            refine ⟨rfl, ?_⟩
            have hb : decide (best.score < 50) = true := by
              cases hd : decide (best.score < 50)
              · rw [hd] at hcond
                simp at hcond
              · rfl
            exact of_decide_eq_true hb
        · rename_i b2 zen heq2
          injection heq with h1 h2
          subst h2
          constructor
          · intro s hs
            simp only at hs
            have hsub := phase2Loop_zen_subset cfg (order_store_items prices).length
              (initBlocked ++ recorded) att (order_store_items prices) best [] (by simp)
            rw [heq2] at hsub
            have hmem := hsub s (by simpa [phase2OutZen] using hs)
            rw [List.mem_append] at hmem
            exact hmem
          · intro hz
            refine ⟨rfl, ?_⟩
            have hb : decide (best.score < 50) = true := by
              cases hd : decide (best.score < 50)
              · rw [hd] at hcond
                simp at hcond
              · rfl
            exact of_decide_eq_true hb
      · rename_i hcond
        injection heq with h1 h2
        subst h2
        constructor
        · intro s hs
          simp at hs
        · intro hz
          simp at hz

/-- Witness for C3 (amended) at a concrete run (the renderer was invoked
for tesco, which is in the initial blocked set). -/
theorem phase2_blocked_only_witness :
    "tesco" ∈ (["tesco"] : List String) ∨
      "tesco" ∈ (process_row_with_priority_system cfgC3 ["tesco"] pricesC3).2.recorded :=
  (phase2_blocked_only cfgC3 ["tesco"] pricesC3
      (process_row_with_priority_system cfgC3 ["tesco"] pricesC3).1
      (process_row_with_priority_system cfgC3 ["tesco"] pricesC3).2 rfl).1
    "tesco" (by decide)

/-- C3 counterexample: tesco sits in the process-wide blocked set from an
earlier row; this row's phase 1 records nothing blocked, yet phase 2
sends tesco to the external renderer — so "recorded as blocked during
the same row's Phase 1" is violated.  With an empty initial set the
renderer is not invoked at all. -/
theorem phase2_uses_stale_blocked_set :
    (process_row_with_priority_system cfgC3 ["tesco"] pricesC3).2.zenrows = ["tesco"] ∧
    (process_row_with_priority_system cfgC3 ["tesco"] pricesC3).2.recorded = [] ∧
    (process_row_with_priority_system cfgC3 [] pricesC3).2.zenrows = [] := by
  refine ⟨by decide, by decide, by decide⟩

/-- C10: a phase-2 (ZenRows) success outcome's category is the raw
extractor output joined with " > " — `normalize_breadcrumbs` is not
applied — so the six-level cap and the no-duplicates invariant can fail
there; concretely, an eight-element duplicated extraction is returned
verbatim. -/
theorem phase2_raw_category :
    (∀ (cfg : RowCfg) (total : Nat) (blocked : List String) (att : Nat)
      (store url h d : String) (cr : List String)
      (rest : List (String × StoreVal)) (best : RowResult) (zen : List String),
      blocked.contains store = true →
      validUrlB url = true →
      cfg.zenFetch store url = some h →
      500 < h.length →
      cfg.extractE store h url = (cr, d) →
      cr ≠ [] →
      phase2Loop cfg total blocked att ((store, .dict (some url)) :: rest) best zen =
        (if 50 ≤ score_breadcrumb_quality cr store url then
          .early (phase2Result store url cr d att total) (zen ++ [store])
        else
          phase2Loop cfg total blocked att rest
            (if best.score < score_breadcrumb_quality cr store url then
              phase2Result store url cr d att total
            else best) (zen ++ [store])) ∧
      (phase2Result store url cr d att total).category = some (joinSep " > " cr)) ∧
    ((process_row_with_priority_system cfgC10 [] pricesC10).1.category =
        some (joinSep " > " crumbsC10) ∧
      (process_row_with_priority_system cfgC10 [] pricesC10).1.status = "success" ∧
      (process_row_with_priority_system cfgC10 [] pricesC10).1.attempt = 2 ∧
      6 < crumbsC10.length ∧ ¬ crumbsC10.Nodup ∧
      normalize_breadcrumbs crumbsC10 (some "tesco") (some "https://www.tesco.com/p/1") 6 ≠ crumbsC10) := by
  constructor
  · intro cfg total blocked att store url h d cr rest best zen hbl hu hz hlen hx hne
    have hb : (!blocked.contains store) = false := by
      rw [hbl]
      rfl
    have hl : (!decide (500 < h.length)) = false := by
      rw [decide_eq_true hlen]
      rfl
    have hcr : (!cr.isEmpty) = true := bang_isEmpty_of_ne hne
    constructor
    · simp only [phase2Loop, hb, Bool.false_eq_true, if_false, hu, Bool.not_true, hz, hl, hx, hcr,
        if_true]
      rfl
    · rfl
  · refine ⟨by decide, by decide, by decide, by decide, by decide, by decide⟩

/-- Witness for C10: the phase-2 step at a concrete blocked store returns
the raw eight-element category immediately (its score, 65, meets the
threshold). -/
theorem phase2_raw_category_witness :
    phase2Loop cfgC10 1 ["tesco"] 1 [("tesco", .dict (some "https://www.tesco.com/p/1"))]
        (initialBestResult 1) [] =
      .early (phase2Result "tesco" "https://www.tesco.com/p/1" crumbsC10 "m" 1 1) ["tesco"] := by
  rw [(phase2_raw_category.1 cfgC10 1 ["tesco"] 1 "tesco" "https://www.tesco.com/p/1" zedHtml "m"
      crumbsC10 [] (initialBestResult 1) [] (by decide) (by decide) rfl (by decide) rfl
      (by decide)).1]
  rw [if_pos (by decide)]
  rfl

theorem keysOf_append (a b : List (String × StoreResult)) :
    keysOf (a ++ b) = keysOf a ++ keysOf b := by
  simp [keysOf]

theorem any_beq_true_mem_keys {res : List (String × StoreResult)} {k : String}
    (h : (res.any fun p => p.1 == k) = true) : k ∈ keysOf res := by
  rcases List.any_eq_true.mp h with ⟨p, hp, hbeq⟩
  have : p.1 = k := by simpa using hbeq
  subst this
  exact List.mem_map_of_mem _ hp

theorem any_beq_false_not_mem_keys {res : List (String × StoreResult)} {k : String}
    (h : (res.any fun p => p.1 == k) = false) : k ∉ keysOf res := by
  intro hm
  rcases List.mem_map.mp hm with ⟨p, hp, hfst⟩
  have := List.any_eq_false.mp h p hp
  simp [hfst] at this

theorem keysOf_upsert_of_any {res : List (String × StoreResult)} {k : String} {v : StoreResult}
    (h : (res.any fun p => p.1 == k) = true) : keysOf (upsert res k v) = keysOf res := by
  unfold upsert
  rw [if_pos h]
  unfold keysOf
  rw [List.map_map]
  apply List.map_congr_left
  intro p _
  by_cases hb : p.1 = k
  · simp [hb]
  · simp [hb]

theorem bool_not_true_eq_false {b : Bool} (h : ¬ (b = true)) : b = false := by
  cases b
  · rfl
  · exact absurd rfl h

theorem keysOf_upsert_of_not_any {res : List (String × StoreResult)} {k : String} {v : StoreResult}
    (h : ¬ ((res.any fun p => p.1 == k) = true)) :
    keysOf (upsert res k v) = keysOf res ++ [k] := by
  unfold upsert
  rw [if_neg h]
  simp [keysOf]

theorem mem_keysOf_upsert {res : List (String × StoreResult)} {k m : String} {v : StoreResult} :
    m ∈ keysOf (upsert res k v) ↔ m ∈ keysOf res ∨ m = k := by
  by_cases h : (res.any fun p => p.1 == k) = true
  · rw [keysOf_upsert_of_any h]
    constructor
    · exact Or.inl
    · rintro (hm | rfl)
      · exact hm
      · exact any_beq_true_mem_keys h
  · rw [keysOf_upsert_of_not_any h]
    rw [List.mem_append]
    simp

theorem nodup_keysOf_upsert {res : List (String × StoreResult)} {k : String} {v : StoreResult}
    (h : (keysOf res).Nodup) : (keysOf (upsert res k v)).Nodup := by
  by_cases hany : (res.any fun p => p.1 == k) = true
  · rw [keysOf_upsert_of_any hany]
    exact h
  · rw [keysOf_upsert_of_not_any hany]
    rw [List.nodup_append]
    refine ⟨h, List.nodup_singleton _, ?_⟩
    intro a ha hb
    simp at hb
    subst hb
    exact any_beq_false_not_mem_keys (bool_not_true_eq_false hany) ha

theorem step3_keys (cfg : AislesCfg) (ord : List (String × StoreVal)) :
    ∀ res, (∀ m, m ∈ keysOf (aislesStep3 cfg ord res) ↔ m ∈ keysOf res ∨ m ∈ normsOf ord) ∧
      ((keysOf res).Nodup → (keysOf (aislesStep3 cfg ord res)).Nodup) := by
  induction ord with
  | nil =>
    intro res
    constructor
    · intro m
      simp [aislesStep3, normsOf]
    · intro h
      simpa [aislesStep3] using h
  | cons p rest ih =>
    intro res
    obtain ⟨name, sv⟩ := p
    constructor
    · intro m
      simp only [aislesStep3]
      rw [(ih _).1 m, mem_keysOf_upsert]
      simp only [normsOf, List.map_cons, List.mem_cons]
      constructor
      · rintro ((hm | rfl) | hm)
        · exact Or.inl hm
        · exact Or.inr (Or.inl rfl)
        · exact Or.inr (Or.inr (by simpa [normsOf] using hm))
      · rintro (hm | (rfl | hm))
        · exact Or.inl (Or.inl hm)
        · exact Or.inl (Or.inr rfl)
        · exact Or.inr (by simpa [normsOf] using hm)
    · intro h
      simp only [aislesStep3]
      exact (ih _).2 (nodup_keysOf_upsert h)

theorem step2_ord_ext (processed : List String) (rest : List (String × StoreVal)) :
    ∀ res ord, ∃ ext, (aislesStep2 processed rest res ord).2 = ord ++ ext ∧
      ∀ q ∈ ext, q ∈ rest := by
  induction rest with
  | nil =>
    intro res ord
    exact ⟨[], by simp [aislesStep2], by simp⟩
  | cons p r ih =>
    intro res ord
    obtain ⟨name, sv⟩ := p
    simp only [aislesStep2]
    split
    · rcases ih res ord with ⟨ext, he, hq⟩
      exact ⟨ext, he, fun q hqe => List.mem_cons_of_mem _ (hq q hqe)⟩
    · split
      · rcases ih _ ord with ⟨ext, he, hq⟩
        exact ⟨ext, he, fun q hqe => List.mem_cons_of_mem _ (hq q hqe)⟩
      · rcases ih res (ord ++ [(name, sv)]) with ⟨ext, he, hq⟩
        refine ⟨(name, sv) :: ext, by simpa using he, ?_⟩
        intro q hqe
        rcases List.mem_cons.mp hqe with rfl | hqe
        · exact List.mem_cons_self _ _
        · exact List.mem_cons_of_mem _ (hq q hqe)

theorem step2_keys_sub (processed : List String) (rest : List (String × StoreVal)) :
    ∀ res ord m, m ∈ keysOf (aislesStep2 processed rest res ord).1 →
      m ∈ keysOf res ∨ m ∈ normsOf rest := by
  induction rest with
  | nil =>
    intro res ord m hm
    simp [aislesStep2] at hm
    exact Or.inl hm
  | cons p r ih =>
    intro res ord m hm
    obtain ⟨name, sv⟩ := p
    simp only [aislesStep2] at hm
    split at hm
    · rcases ih res ord m hm with h | h
      · exact Or.inl h
      · exact Or.inr (List.mem_cons_of_mem _ h)
    · split at hm
      · rcases ih _ ord m hm with h | h
        · rcases mem_keysOf_upsert.mp h with h2 | rfl
          · exact Or.inl h2
          · exact Or.inr (by simp [normsOf])
        · exact Or.inr (List.mem_cons_of_mem _ h)
      · rcases ih res _ m hm with h | h
        · exact Or.inl h
        · exact Or.inr (List.mem_cons_of_mem _ h)

theorem step2_keys_nodup (processed : List String) (rest : List (String × StoreVal)) :
    ∀ res ord, (keysOf res).Nodup → (keysOf (aislesStep2 processed rest res ord).1).Nodup := by
  induction rest with
  | nil =>
    intro res ord h
    simpa [aislesStep2] using h
  | cons p r ih =>
    intro res ord h
    obtain ⟨name, sv⟩ := p
    simp only [aislesStep2]
    split
    · exact ih res ord h
    · split
      · exact ih _ ord (nodup_keysOf_upsert h)
      · exact ih res _ h

theorem step2_keys_mono (processed : List String) (rest : List (String × StoreVal)) :
    ∀ res ord m, m ∈ keysOf res → m ∈ keysOf (aislesStep2 processed rest res ord).1 := by
  induction rest with
  | nil =>
    intro res ord m hm
    simpa [aislesStep2] using hm
  | cons p r ih =>
    intro res ord m hm
    obtain ⟨name, sv⟩ := p
    simp only [aislesStep2]
    split
    · exact ih res ord m hm
    · split
      · exact ih _ ord m (mem_keysOf_upsert.mpr (Or.inl hm))
      · exact ih res _ m hm

theorem step2_cover (processed : List String) (rest : List (String × StoreVal)) :
    ∀ res ord, (∀ m ∈ processed, m ∈ normsOf ord) →
      ∀ q ∈ rest, normalize_store_name q.1 ∈ keysOf (aislesStep2 processed rest res ord).1 ∨
        normalize_store_name q.1 ∈ normsOf (aislesStep2 processed rest res ord).2 := by
  induction rest with
  | nil =>
    intro res ord hp q hq
    simp at hq
  | cons p r ih =>
    intro res ord hp q hq
    obtain ⟨name, sv⟩ := p
    rcases List.mem_cons.mp hq with rfl | hq
    · -- the head entry
      simp only [aislesStep2]
      split
      · rename_i hproc
        -- processed: its norm is in ord, and ord is a prefix of the final ord
        right
        rcases step2_ord_ext processed r res ord with ⟨ext, he, _⟩
        rw [he]
        have : normalize_store_name name ∈ normsOf ord := hp _ (by simpa using hproc)
        simp only [normsOf, List.map_append, List.mem_append]
        exact Or.inl (by simpa [normsOf] using this)
      · split
        · left
          exact step2_keys_mono processed r _ ord _
            (mem_keysOf_upsert.mpr (Or.inr rfl))
        · right
          rcases step2_ord_ext processed r res (ord ++ [(name, sv)]) with ⟨ext, he, _⟩
          rw [he]
          simp [normsOf]
    · -- an entry further along
      simp only [aislesStep2]
      split
      · exact ih res ord hp q hq
      · split
        · exact ih _ ord hp q hq
        · refine ih res (ord ++ [(name, sv)]) ?_ q hq
          intro m hm
          have := hp m hm
          simp only [normsOf, List.map_append, List.mem_append]
          exact Or.inl (by simpa [normsOf] using this)

theorem step1_ord_ext (prices : List (String × StoreVal)) (ps : List String) :
    ∀ res ord, ∃ ext, (aislesStep1 prices ps res ord).2 = ord ++ ext ∧
      ∀ q ∈ ext, q ∈ prices := by
  induction ps with
  | nil =>
    intro res ord
    exact ⟨[], by simp [aislesStep1], by simp⟩
  | cons p r ih =>
    intro res ord
    simp only [aislesStep1]
    split
    · rename_i q hfind
      split
      · rcases ih _ ord with ⟨ext, he, hq⟩
        exact ⟨ext, he, hq⟩
      · rcases ih res (ord ++ [q]) with ⟨ext, he, hq⟩
        refine ⟨q :: ext, by simpa using he, ?_⟩
        intro q2 hq2
        rcases List.mem_cons.mp hq2 with rfl | hq2
        · exact List.mem_of_find?_eq_some hfind
        · exact hq q2 hq2
    · rcases ih res ord with ⟨ext, he, hq⟩
      exact ⟨ext, he, hq⟩

theorem step1_keys_sub (prices : List (String × StoreVal)) (ps : List String) :
    ∀ res ord m, m ∈ keysOf (aislesStep1 prices ps res ord).1 →
      m ∈ keysOf res ∨ m ∈ normsOf prices := by
  induction ps with
  | nil =>
    intro res ord m hm
    simp [aislesStep1] at hm
    exact Or.inl hm
  | cons p r ih =>
    intro res ord m hm
    simp only [aislesStep1] at hm
    split at hm
    · rename_i q hfind
      split at hm
      · rcases ih _ ord m hm with h | h
        · rcases mem_keysOf_upsert.mp h with h2 | rfl
          · exact Or.inl h2
          · right
            have hqmem : q ∈ prices := List.mem_of_find?_eq_some hfind
            have hbeq := List.find?_some hfind
            have : normalize_store_name q.1 = normalize_store_name p := by simpa using hbeq
            rw [← this]
            exact List.mem_map_of_mem _ hqmem
        · exact Or.inr h
      · exact ih res _ m hm
    · exact ih res ord m hm

theorem step1_keys_nodup (prices : List (String × StoreVal)) (ps : List String) :
    ∀ res ord, (keysOf res).Nodup → (keysOf (aislesStep1 prices ps res ord).1).Nodup := by
  induction ps with
  | nil =>
    intro res ord h
    simpa [aislesStep1] using h
  | cons p r ih =>
    intro res ord h
    simp only [aislesStep1]
    split
    · split
      · exact ih _ ord (nodup_keysOf_upsert h)
      · exact ih res _ h
    · exact ih res ord h

theorem dedupFirstAux_mem : ∀ (l seen : List String) (m : String),
    m ∈ dedupFirstAux l seen ↔ m ∈ l ∧ m ∉ seen := by
  intro l
  induction l with
  | nil =>
    intro seen m
    simp [dedupFirstAux]
  | cons x xs ih =>
    intro seen m
    simp only [dedupFirstAux]
    split
    · rename_i hx
      rw [ih seen m]
      simp only [List.mem_cons]
      constructor
      · rintro ⟨hm, hns⟩
        exact ⟨Or.inr hm, hns⟩
      · rintro ⟨hm | hm, hns⟩
        · subst hm
          exact absurd (List.elem_iff.mp hx) hns
        · exact ⟨hm, hns⟩
    · rename_i hx
      simp only [List.mem_cons]
      constructor
      · intro hm
        rcases hm with rfl | hm
        · refine ⟨Or.inl rfl, ?_⟩
          intro hseen
          exact hx (List.elem_iff.mpr hseen)
        · rw [ih (x :: seen) m] at hm
          rcases hm with ⟨h1, h2⟩
          refine ⟨Or.inr h1, fun hs => h2 (List.mem_cons_of_mem _ hs)⟩
      · rintro ⟨hm | hm, hns⟩
        · subst hm
          exact Or.inl rfl
        · by_cases hxm : m = x
          · subst hxm
            exact Or.inl rfl
          · refine Or.inr ?_
            rw [ih (x :: seen) m]
            refine ⟨hm, ?_⟩
            intro hs
            rcases List.mem_cons.mp hs with h | h
            · exact hxm h
            · exact hns h

theorem dedupFirstAux_nodup : ∀ (l seen : List String), (dedupFirstAux l seen).Nodup := by
  intro l
  induction l with
  | nil =>
    intro seen
    simp [dedupFirstAux]
  | cons x xs ih =>
    intro seen
    simp only [dedupFirstAux]
    split
    · exact ih seen
    · refine List.nodup_cons.mpr ⟨?_, ih (x :: seen)⟩
      intro hx
      rw [dedupFirstAux_mem] at hx
      exact hx.2 (List.mem_cons_self _ _)

theorem dedupFirst_mem (l : List String) (m : String) : m ∈ dedupFirst l ↔ m ∈ l := by
  unfold dedupFirst
  rw [dedupFirstAux_mem]
  simp

theorem dedupFirst_nodup (l : List String) : (dedupFirst l).Nodup := dedupFirstAux_nodup l []

theorem nodup_length_eq (A B : List String) (hA : A.Nodup) (hB : B.Nodup)
    (h : ∀ m, m ∈ A ↔ m ∈ B) : A.length = B.length := by
  have hfin : A.toFinset = B.toFinset := by
    apply Finset.ext
    intro a
    simp only [List.mem_toFinset]
    exact h a
  calc A.length = A.toFinset.card := (List.toFinset_card_of_nodup hA).symm
    _ = B.toFinset.card := by rw [hfin]
    _ = B.length := List.toFinset_card_of_nodup hB

set_option maxHeartbeats 2000000 in
theorem aisles_keys_aux (cfg : AislesCfg) (prices : List (String × StoreVal))
    (res1 : List (String × StoreResult)) (ord1 : List (String × StoreVal))
    (res2 : List (String × StoreResult)) (ord2 : List (String × StoreVal))
    (h1 : aislesStep1 prices SCRAPE_PRIORITY [] [] = (res1, ord1))
    (h2 : aislesStep2 (List.map (fun p => normalize_store_name p.1) ord1) prices res1 ord1
      = (res2, ord2)) :
    (∀ m, m ∈ keysOf (aislesStep3 cfg ord2 res2) ↔ m ∈ normsOf prices) ∧
    (keysOf (aislesStep3 cfg ord2 res2)).Nodup := by
  have hsub1 : ∀ m, m ∈ keysOf res1 → m ∈ normsOf prices := by
    intro m hm
    have := step1_keys_sub prices SCRAPE_PRIORITY [] [] m
    rw [h1] at this
    rcases this hm with h | h
    · simp [keysOf] at h
    · exact h
  have hord1 : ∀ q ∈ ord1, q ∈ prices := by
    intro q hq
    have := step1_ord_ext prices SCRAPE_PRIORITY [] []
    rw [h1] at this
    rcases this with ⟨ext, he, hqq⟩
    dsimp only at he
    rw [he] at hq
    simp only [List.nil_append] at hq
    exact hqq q hq
  have hsub2 : ∀ m, m ∈ keysOf res2 → m ∈ keysOf res1 ∨ m ∈ normsOf prices := by
    intro m hm
    have := step2_keys_sub (ord1.map fun p => normalize_store_name p.1) prices res1 ord1 m
    rw [h2] at this
    exact this hm
  have hord2 : ∀ q ∈ ord2, q ∈ prices := by
    intro q hq
    have := step2_ord_ext (ord1.map fun p => normalize_store_name p.1) prices res1 ord1
    rw [h2] at this
    rcases this with ⟨ext, he, hqq⟩
    dsimp only at he
    rw [he] at hq
    rw [List.mem_append] at hq
    rcases hq with hq | hq
    · exact hord1 q hq
    · exact hqq q hq
  have hcover : ∀ q ∈ prices, normalize_store_name q.1 ∈ keysOf res2 ∨
      normalize_store_name q.1 ∈ normsOf ord2 := by
    intro q hq
    have := step2_cover (ord1.map fun p => normalize_store_name p.1) prices res1 ord1
      (by intro m hm; simpa [normsOf] using hm) q hq
    rw [h2] at this
    exact this
  have hnodup2 : (keysOf res2).Nodup := by
    have hn1 : (keysOf res1).Nodup := by
      have := step1_keys_nodup prices SCRAPE_PRIORITY [] [] (by simp [keysOf])
      rw [h1] at this
      exact this
    have := step2_keys_nodup (ord1.map fun p => normalize_store_name p.1) prices res1 ord1 hn1
    rw [h2] at this
    exact this
  constructor
  · intro m
    rw [(step3_keys cfg ord2 res2).1 m]
    constructor
    · rintro (hm | hm)
      · rcases hsub2 m hm with h | h
        · exact hsub1 m h
        · exact h
      · rcases List.mem_map.mp hm with ⟨q, hqe, rfl⟩
        exact List.mem_map_of_mem _ (hord2 q hqe)
    · intro hm
      rcases List.mem_map.mp hm with ⟨q, hqe, rfl⟩
      rcases hcover q hqe with h | h
      · exact Or.inl h
      · exact Or.inr h
  · exact (step3_keys cfg ord2 res2).2 hnodup2

theorem extract_aisles_keys (cfg : AislesCfg) (prices : List (String × StoreVal)) :
    (∀ m, m ∈ keysOf (extract_aisles_from_all_stores cfg prices) ↔ m ∈ normsOf prices) ∧
    (keysOf (extract_aisles_from_all_stores cfg prices)).Nodup := by
  by_cases hp : prices.isEmpty = true
  · have hnil : prices = [] := by
      cases prices with
      | nil => rfl
      | cons a t => simp [List.isEmpty] at hp
    subst hnil
    constructor
    · intro m
      simp [extract_aisles_from_all_stores, keysOf, normsOf]
    · simp [extract_aisles_from_all_stores, keysOf]
  · simp only [extract_aisles_from_all_stores, if_neg hp]
    exact aisles_keys_aux cfg prices _ _ _ _ rfl rfl

theorem extract_aisles_length (cfg : AislesCfg) (prices : List (String × StoreVal)) :
    (extract_aisles_from_all_stores cfg prices).length = (dedupFirst (normsOf prices)).length := by
  have hk : (extract_aisles_from_all_stores cfg prices).length =
      (keysOf (extract_aisles_from_all_stores cfg prices)).length := by
    simp [keysOf]
  rw [hk]
  apply nodup_length_eq _ _ (extract_aisles_keys cfg prices).2 (dedupFirst_nodup _)
  intro m
  rw [(extract_aisles_keys cfg prices).1 m, dedupFirst_mem]

theorem bang_isEmpty_ne_nil {α : Type} {l : List α} (h : (!l.isEmpty) = true) : l ≠ [] := by
  cases l with
  | nil => simp at h
  | cons a t => exact fun hc => List.noConfusion hc

theorem mem_upsert_val {res : List (String × StoreResult)} {k : String} {v : StoreResult}
    {pr : String × StoreResult} (h : pr ∈ upsert res k v) : pr ∈ res ∨ pr.2 = v := by
  unfold upsert at h
  split at h
  · rcases List.mem_map.mp h with ⟨q, hq, he⟩
    by_cases hk : (q.1 == k) = true
    · rw [if_pos hk] at he
      right
      rw [← he]
    · rw [if_neg hk] at he
      left
      rw [← he]
      exact hq
  · rw [List.mem_append] at h
    rcases h with h | h
    · exact Or.inl h
    · right
      simp only [List.mem_singleton] at h
      rw [h]

theorem upsert_good {res : List (String × StoreResult)} {k : String} {v : StoreResult}
    (hres : ∀ pr ∈ res, goodResult pr.2) (hv : goodResult v) :
    ∀ pr ∈ upsert res k v, goodResult pr.2 := by
  intro pr hpr
  rcases mem_upsert_val hpr with h | h
  · exact hres pr h
  · rw [h]
    exact hv

theorem skippedResult_good (pn : String) (sv : StoreVal) : goodResult (skippedResult pn sv) := by
  intro h
  have hs : (skippedResult pn sv).status = "skipped_problematic_store" := rfl
  rw [hs] at h
  exact absurd h (by decide)

theorem processStore_good (cfg : AislesCfg) (n : String) (sv : StoreVal) :
    goodResult (processStore cfg n sv) := by
  unfold goodResult
  simp only [processStore]
  repeat' split
  all_goals intro h
  all_goals first
    | (refine ⟨_, bang_isEmpty_ne_nil ?_, rfl⟩; first | assumption | simp_all)
    | simp at h

theorem step1_vals (prices : List (String × StoreVal)) (ps : List String) :
    ∀ res ord, (∀ pr ∈ res, goodResult pr.2) →
      ∀ pr ∈ (aislesStep1 prices ps res ord).1, goodResult pr.2 := by
  induction ps with
  | nil =>
    intro res ord h pr hpr
    simp only [aislesStep1] at hpr
    exact h pr hpr
  | cons p r ih =>
    intro res ord h pr hpr
    simp only [aislesStep1] at hpr
    split at hpr
    · split at hpr
      · exact ih _ ord (upsert_good h (skippedResult_good _ _)) pr hpr
      · exact ih res _ h pr hpr
    · exact ih res ord h pr hpr

theorem step2_vals (processed : List String) (rest : List (String × StoreVal)) :
    ∀ res ord, (∀ pr ∈ res, goodResult pr.2) →
      ∀ pr ∈ (aislesStep2 processed rest res ord).1, goodResult pr.2 := by
  induction rest with
  | nil =>
    intro res ord h pr hpr
    simp only [aislesStep2] at hpr
    exact h pr hpr
  | cons p r ih =>
    rcases p with ⟨name, sv⟩
    intro res ord h pr hpr
    simp only [aislesStep2] at hpr
    split at hpr
    · exact ih res ord h pr hpr
    · split at hpr
      · exact ih _ ord (upsert_good h (skippedResult_good _ _)) pr hpr
      · exact ih res _ h pr hpr

theorem step3_vals (cfg : AislesCfg) (ord : List (String × StoreVal)) :
    ∀ res, (∀ pr ∈ res, goodResult pr.2) →
      ∀ pr ∈ aislesStep3 cfg ord res, goodResult pr.2 := by
  induction ord with
  | nil =>
    intro res h pr hpr
    simp only [aislesStep3] at hpr
    exact h pr hpr
  | cons p rest ih =>
    rcases p with ⟨name, sv⟩
    intro res h pr hpr
    simp only [aislesStep3] at hpr
    exact ih _ (upsert_good h (processStore_good _ _ _)) pr hpr

theorem extract_aisles_good (cfg : AislesCfg) (prices : List (String × StoreVal)) :
    ∀ pr ∈ extract_aisles_from_all_stores cfg prices, goodResult pr.2 := by
  by_cases hp : prices.isEmpty = true
  · intro pr hpr
    simp [extract_aisles_from_all_stores, hp] at hpr
  · intro pr hpr
    simp only [extract_aisles_from_all_stores, if_neg hp] at hpr
    refine step3_vals cfg _ _ ?_ pr hpr
    refine step2_vals _ _ _ _ ?_
    refine step1_vals _ _ _ _ ?_
    intro w hw
    exact absurd hw (List.not_mem_nil w)

theorem flat_rows_aisle_form (pc : Option String) (allR : List (String × StoreResult))
    (hgood : ∀ pr ∈ allR, goodResult pr.2) :
    ∀ row ∈ flat_export_rows pc allR,
      row.aisle = "FAILED" ∨ ∃ cr : List String, cr ≠ [] ∧ row.aisle = joinSep " > " cr := by
  intro row hrow
  rcases List.mem_map.mp hrow with ⟨pr, hpr, rfl⟩
  simp only [flatRowOf]
  split
  · rename_i a ha
    split
    · rename_i hcond
      right
      have hst : pr.2.status = "success" := by
        cases hs : (pr.2.status == "success") with
        | false => rw [hs] at hcond; simp at hcond
        | true => exact eq_of_beq hs
      rcases hgood pr hpr hst with ⟨cr, hcr, hais⟩
      rw [ha] at hais
      exact ⟨cr, hcr, Option.some.inj hais⟩
    · exact Or.inl rfl
  · exact Or.inl rfl

/-- C4 (amended): the flat export emits exactly one record per **distinct
normalized** store name of the input row (not one per raw `storeLinks`
entry), and each record's aisle field is a `" > "`-joined breadcrumb
list when the store's extraction succeeded and the literal `FAILED`
otherwise. -/
theorem flat_export_one_per_normalized_store (cfg : AislesCfg)
    (prices : List (String × StoreVal)) (pc : Option String) :
    (flat_export_rows pc (extract_aisles_from_all_stores cfg prices)).length
        = (dedupFirst (normsOf prices)).length ∧
    ∀ row ∈ flat_export_rows pc (extract_aisles_from_all_stores cfg prices),
      row.aisle = "FAILED" ∨ ∃ cr : List String, cr ≠ [] ∧ row.aisle = joinSep " > " cr := by
  constructor
  · have hlen : (flat_export_rows pc (extract_aisles_from_all_stores cfg prices)).length
        = (extract_aisles_from_all_stores cfg prices).length := by
      simp [flat_export_rows]
    rw [hlen, extract_aisles_length]
  · exact flat_rows_aisle_form pc _ (extract_aisles_good cfg prices)

/-- C4 witness: the concrete duplicate-normalization row yields the
record `rowC4`, whose aisle is the literal `FAILED`. -/
theorem flat_export_one_per_normalized_store_witness :
    rowC4 ∈ flat_export_rows (some "P1") (extract_aisles_from_all_stores cfgC4 pricesC4) ∧
    (rowC4.aisle = "FAILED" ∨ ∃ cr : List String, cr ≠ [] ∧ rowC4.aisle = joinSep " > " cr) :=
  ⟨by decide,
   (flat_export_one_per_normalized_store cfgC4 pricesC4 (some "P1")).2 rowC4 (by decide)⟩

/-- C4 counterexample: a row whose two `storeLinks` keys `Tesco` and
`tesco` normalize to the same retailer emits a single flat record, not
`len(row.storeLinks) = 2` records. -/
theorem flat_rows_collapse_duplicate_norms :
    (flat_export_rows (some "P1") (extract_aisles_from_all_stores cfgC4 pricesC4)).length = 1 ∧
    pricesC4.length = 2 := by
  constructor
  · decide
  · rfl
